import Mathlib

/-!
# Verification of the `conway-game` repository

This file gives a shallow embedding of the two Game-of-Life engines that
coexist in the repository's `conway` package, and proves (or refutes) the
frozen claims about them.

* `conwayMin` embeds the minimal engine (the file defining
  `type generation image.Paletted` directly: `NewGeneration`, `nbalive`,
  `Next`, `Set`).
* `conway` embeds the aspect-ratio / color-model engine (the file defining
  `farestPoint`, `EuclideanDistance`, `AspectRatio`, the `generation` struct
  with ratio/model/ordinal/center, `NewGeneration`, `ColorIndexAt`,
  `SetColorIndex`, `nbalive`, `Next`, `Set`, `Conway`, `NewConway`, `Run`).

Both engines store a generation as a Go `image.Paletted`: a flat `Pix`
byte buffer addressed through `PixOffset(x,y) = (y-Rect.Min.Y)*Stride +
(x-Rect.Min.X)`, where `ColorIndexAt` returns 0 and `SetColorIndex` is a
no-op for points outside the half-open rectangle `Rect` (this is the Go
standard library semantics of `image.Paletted` and `Point.In`).  The `Pix`
slice is modelled as a total function from offsets to byte values; Go's
`make([]uint8, n)` zero-fills, so a fresh buffer is the constant-zero
function, and the code never indexes `Pix` outside the allocated range
because every access is guarded by the rectangle test.  Go `int` is
modelled as `ℤ` (no arithmetic in the package approaches 2^63), Go integer
division (truncation toward zero) as `Int.tdiv`, and the Go conversion
`uint8(v)` of an integer as reduction mod 256.
-/

/-- Go `image.Point`. -/
structure GoPoint where
  x : ℤ
  y : ℤ
deriving DecidableEq

/-- Go `image.Rectangle` (half-open, as used by `Point.In`). -/
structure GoRect where
  min : GoPoint
  max : GoPoint
deriving DecidableEq

/-- Go `(p image.Point).In(r image.Rectangle)`:
`r.Min.X <= p.X && p.X < r.Max.X && r.Min.Y <= p.Y && p.Y < r.Max.Y`. -/
def GoPoint.inRect (p : GoPoint) (r : GoRect) : Prop :=
  r.min.x ≤ p.x ∧ p.x < r.max.x ∧ r.min.y ≤ p.y ∧ p.y < r.max.y

instance (p : GoPoint) (r : GoRect) : Decidable (p.inRect r) := by
  unfold GoPoint.inRect; infer_instance

theorem GoPoint.inRect_def (x y : ℤ) (r : GoRect) :
    GoPoint.inRect ⟨x, y⟩ r ↔ (r.min.x ≤ x ∧ x < r.max.x ∧ r.min.y ≤ y ∧ y < r.max.y) :=
  Iff.rfl

/-- Go conversion `uint8(v)` for `v : int`: two's-complement truncation,
i.e. reduction modulo 256 (Lean's `%` on `ℤ` is Euclidean, so the result
is in `[0, 256)`). -/
def u8 (v : ℤ) : ℕ := (v % 256).toNat

/-- Go `image.Paletted`, restricted to the fields the repository reads:
the pixel buffer (as a total function from flat offsets to byte values),
the stride and the rectangle.  The color palette itself is carried by the
Go value but never inspected by the engine logic under verification, so it
is omitted. -/
structure Paletted where
  pix : ℤ → ℕ
  stride : ℤ
  rect : GoRect

/-- Go `(p *image.Paletted).PixOffset(x, y)`. -/
def Paletted.pixOffset (p : Paletted) (x y : ℤ) : ℤ :=
  (y - p.rect.min.y) * p.stride + (x - p.rect.min.x)

/-- Go `(p *image.Paletted).ColorIndexAt(x, y)`: 0 outside `Rect`,
otherwise the buffer byte at `PixOffset(x, y)`. -/
def Paletted.colorIndexAt (p : Paletted) (x y : ℤ) : ℕ :=
  if GoPoint.inRect ⟨x, y⟩ p.rect then p.pix (p.pixOffset x y) else 0

/-- Go `(p *image.Paletted).SetColorIndex(x, y, c)`: no-op outside `Rect`,
otherwise stores `c` at `PixOffset(x, y)`. -/
def Paletted.setColorIndex (p : Paletted) (x y : ℤ) (c : ℕ) : Paletted :=
  if GoPoint.inRect ⟨x, y⟩ p.rect then
    { p with pix := fun o => if o = p.pixOffset x y then c else p.pix o }
  else p

/-- The number of live (nonzero-index) cells among the 8 neighbours of
`(x, y)`, reading through `colorIndexAt` (which returns 0 outside the
rectangle, so the grid does not wrap).  This is the specification-level
neighbour count used to state the claims; both engines' `nbalive` are
proved equal to it. -/
def liveNeighbors (g : Paletted) (x y : ℤ) : ℕ :=
  (if g.colorIndexAt x (y+1) ≠ 0 then 1 else 0) +
  (if g.colorIndexAt (x-1) (y+1) ≠ 0 then 1 else 0) +
  (if g.colorIndexAt (x+1) (y+1) ≠ 0 then 1 else 0) +
  (if g.colorIndexAt x (y-1) ≠ 0 then 1 else 0) +
  (if g.colorIndexAt (x-1) (y-1) ≠ 0 then 1 else 0) +
  (if g.colorIndexAt (x+1) (y-1) ≠ 0 then 1 else 0) +
  (if g.colorIndexAt (x-1) y ≠ 0 then 1 else 0) +
  (if g.colorIndexAt (x+1) y ≠ 0 then 1 else 0)

/-- The row-major list of logical cells `(x, y)` with `0 ≤ x ≤ mx` and
`0 ≤ y ≤ my`, exactly the cells enumerated by the Go double loops
`for x := 0; x <= mx; x++ { for y := 0; y <= my; y++ }`. -/
def cellsL (mx my : ℤ) : List (ℤ × ℤ) :=
  (List.range (mx + 1).toNat).flatMap fun (i : ℕ) =>
    (List.range (my + 1).toNat).map fun (j : ℕ) => ((i : ℤ), (j : ℤ))

namespace conwayMin

/-!
## The minimal engine

Embedding of the package file built directly on `type generation
image.Paletted`.  A `generation` is just a `Paletted`.
-/

/-- `generation` of the minimal engine (`type generation image.Paletted`). -/
abbrev generation := Paletted

/-- `NewGeneration(rectangle, palette)` of the minimal engine: a zero
buffer, `Stride: rectangle.Max.X`, `Rect: rectangle`.  (The `nbpixels`
allocation size is irrelevant in the function model of `Pix`; the palette
is untouched by the logic.) -/
def NewGeneration (rectangle : GoRect) : generation :=
  { pix := fun _ => 0, stride := rectangle.max.x, rect := rectangle }

/-- `(g *generation).nbalive(x, y)` of the minimal engine, with its exact
guard structure (edge tests against `0` and `img.Rect.Max`). -/
def nbalive (g : generation) (x y : ℤ) : ℕ :=
  (if y < g.rect.max.y then
    (if g.colorIndexAt x (y+1) ≠ 0 then 1 else 0) +
    (if x > 0 ∧ g.colorIndexAt (x-1) (y+1) ≠ 0 then 1 else 0) +
    (if x < g.rect.max.x ∧ g.colorIndexAt (x+1) (y+1) ≠ 0 then 1 else 0)
   else 0) +
  (if y > 0 then
    (if g.colorIndexAt x (y-1) ≠ 0 then 1 else 0) +
    (if x > 0 ∧ g.colorIndexAt (x-1) (y-1) ≠ 0 then 1 else 0) +
    (if x < g.rect.max.x ∧ g.colorIndexAt (x+1) (y-1) ≠ 0 then 1 else 0)
   else 0) +
  (if x > 0 ∧ g.colorIndexAt (x-1) y ≠ 0 then 1 else 0) +
  (if x < g.rect.max.x ∧ g.colorIndexAt (x+1) y ≠ 0 then 1 else 0)

/-- The body of the minimal engine's `Next` loop at cell `(x, y)`:
survival (`live && alive in {2,3}`) and birth (`dead && alive == 3`) each
write palette index 1 into the successor buffer `nxt`. -/
def nextCell (g : generation) (x y : ℤ) (nxt : generation) : generation :=
  let alive := nbalive g x y
  let nxt1 := if g.colorIndexAt x y ≠ 0 ∧ (alive = 2 ∨ alive = 3)
              then nxt.setColorIndex x y 1 else nxt
  if g.colorIndexAt x y = 0 ∧ alive = 3 then nxt1.setColorIndex x y 1 else nxt1

/-- `(g *generation).Next()` of the minimal engine: a fresh generation on
`Rect{Min: (0,0), Max: (g.Rect.Max.X, g.Rect.Max.Y)}` filled by the double
loop over `0 ≤ x ≤ Max.X`, `0 ≤ y ≤ Max.Y`. -/
def Next (g : generation) : generation :=
  (List.range (g.rect.max.x + 1).toNat).foldl
    (fun acc (i : ℕ) =>
      (List.range (g.rect.max.y + 1).toNat).foldl
        (fun acc2 (j : ℕ) => nextCell g (i : ℤ) (j : ℤ) acc2) acc)
    (NewGeneration ⟨⟨0, 0⟩, ⟨g.rect.max.x, g.rect.max.y⟩⟩)

/-- `(g *generation).Set(contents)` of the minimal engine.  Returns the
mutated generation together with an error flag (`true` models the
`"Mismatched dimensions"` error, in which case `g` is returned untouched).
The loop reads `contents[y*Rect.Max.X + x]`; in the model an out-of-range
read defaults to `false`, but for the rectangles the callers build every
executed read is in range (proved below), matching the panic-free Go runs. -/
def Set (g : generation) (contents : List Bool) : generation × Bool :=
  if (contents.length : ℤ) ≠
      (1 + g.rect.max.y - g.rect.min.y) * (1 + g.rect.max.x - g.rect.min.x)
  then (g, true)
  else
    ((List.range (g.rect.max.x + 1).toNat).foldl
      (fun acc (i : ℕ) =>
        (List.range (g.rect.max.y + 1).toNat).foldl
          (fun acc2 (j : ℕ) =>
            if contents.getD ((j : ℤ) * g.rect.max.x + (i : ℤ)).toNat false
            then acc2.setColorIndex (i : ℤ) (j : ℤ) 1 else acc2) acc)
      g, false)

end conwayMin

/-!
## Generic lemmas about the `Paletted` buffer and write loops
-/

theorem Paletted.setColorIndex_stride (p : Paletted) (x y : ℤ) (c : ℕ) :
    (p.setColorIndex x y c).stride = p.stride := by
  unfold Paletted.setColorIndex; split <;> rfl

theorem Paletted.setColorIndex_rect (p : Paletted) (x y : ℤ) (c : ℕ) :
    (p.setColorIndex x y c).rect = p.rect := by
  unfold Paletted.setColorIndex; split <;> rfl

theorem Paletted.colorIndexAt_of_not_inRect (p : Paletted) {x y : ℤ}
    (h : ¬ GoPoint.inRect ⟨x, y⟩ p.rect) : p.colorIndexAt x y = 0 := by
  unfold Paletted.colorIndexAt; rw [if_neg h]

theorem Paletted.inRect_of_colorIndexAt_ne_zero (p : Paletted) {x y : ℤ}
    (h : p.colorIndexAt x y ≠ 0) : GoPoint.inRect ⟨x, y⟩ p.rect := by
  by_contra hc; exact h (p.colorIndexAt_of_not_inRect hc)

/-- Injectivity of the flat offset on in-rectangle points, when the stride
is at least the rectangle width (true of every buffer the package builds). -/
theorem Paletted.pixOffset_inj (p : Paletted)
    (hW : p.rect.max.x - p.rect.min.x ≤ p.stride)
    {a b x y : ℤ} (ha : GoPoint.inRect ⟨a, b⟩ p.rect)
    (hx : GoPoint.inRect ⟨x, y⟩ p.rect)
    (h : p.pixOffset a b = p.pixOffset x y) : a = x ∧ b = y := by
  rw [GoPoint.inRect_def] at ha hx
  obtain ⟨ha1, ha2, ha3, ha4⟩ := ha
  obtain ⟨hx1, hx2, hx3, hx4⟩ := hx
  unfold Paletted.pixOffset at h
  have hS : 1 ≤ p.stride := by omega
  have hkey : (b - y) * p.stride = (x - p.rect.min.x) - (a - p.rect.min.x) := by
    linarith
  have hby : b = y := by
    rcases lt_trichotomy b y with hlt | heq | hgt
    · have h1 : b - y ≤ -1 := by omega
      have h2 : (b - y) * p.stride ≤ (-1) * p.stride :=
        mul_le_mul_of_nonneg_right h1 (by omega)
      omega
    · exact heq
    · have h1 : 1 ≤ b - y := by omega
      have h2 : 1 * p.stride ≤ (b - y) * p.stride :=
        mul_le_mul_of_nonneg_right h1 (by omega)
      omega
  subst hby
  constructor
  · omega
  · rfl

theorem Paletted.colorIndexAt_setColorIndex_self (p : Paletted) {x y : ℤ} (c : ℕ)
    (h : GoPoint.inRect ⟨x, y⟩ p.rect) :
    (p.setColorIndex x y c).colorIndexAt x y = c := by
  unfold Paletted.setColorIndex Paletted.colorIndexAt
  rw [if_pos h]
  simp only [if_pos h]
  have : p.pixOffset x y = Paletted.pixOffset { p with
      pix := fun o => if o = p.pixOffset x y then c else p.pix o } x y := rfl
  simp [← this]

theorem Paletted.colorIndexAt_setColorIndex_ne (p : Paletted)
    (hW : p.rect.max.x - p.rect.min.x ≤ p.stride)
    {a b x y : ℤ} (c : ℕ) (hne : ¬ (a = x ∧ b = y)) :
    (p.setColorIndex a b c).colorIndexAt x y = p.colorIndexAt x y := by
  unfold Paletted.setColorIndex
  split
  · next hab =>
    unfold Paletted.colorIndexAt
    split
    · next hxy =>
      have hoff : p.pixOffset x y ≠ p.pixOffset a b := by
        intro he
        exact hne (p.pixOffset_inj hW hab hxy he.symm)
      simp only [Paletted.pixOffset] at hoff ⊢
      simp [if_neg hoff]
    · rfl
  · rfl

/-- Fold invariance: an invariant preserved by each step is preserved by
the whole `foldl`. -/
theorem foldl_invariant {α σ : Type} (I : σ → Prop) (f : σ → α → σ)
    (h : ∀ s a, I s → I (f s a)) :
    ∀ (l : List α) (s : σ), I s → I (l.foldl f s) := by
  intro l
  induction l with
  | nil => intro s hs; exact hs
  | cons hd tl ih => intro s hs; exact ih (f s hd) (h s hd hs)

/-- A fold whose steps all fix the state fixes the state. -/
theorem foldl_fixed {α σ : Type} (f : σ → α → σ) (l : List α) (s : σ)
    (h : ∀ t a, a ∈ l → f t a = t) : l.foldl f s = s := by
  induction l generalizing s with
  | nil => rfl
  | cons hd tl ih =>
    rw [List.foldl_cons, h s hd (List.mem_cons_self hd tl)]
    exact ih s fun t a ha => h t a (List.mem_cons_of_mem hd ha)

/-- Two folds agree when their step functions agree on the list's elements. -/
theorem foldl_congr_fn {α σ : Type} (f g : σ → α → σ) (l : List α) (s : σ)
    (h : ∀ t a, a ∈ l → f t a = g t a) : l.foldl f s = l.foldl g s := by
  induction l generalizing s with
  | nil => rfl
  | cons hd tl ih =>
    rw [List.foldl_cons, List.foldl_cons, h s hd (List.mem_cons_self hd tl)]
    exact ih (g s hd) fun t a ha => h t a (List.mem_cons_of_mem hd ha)

/-- A fold that threads a read-only first component through a pair leaves
it unchanged and acts on the second component alone. -/
theorem foldl_pair {α γ σ : Type} (F : γ → α → σ → σ) :
    ∀ (l : List α) (p : γ × σ),
      l.foldl (fun q c => (q.1, F q.1 c q.2)) p = (p.1, l.foldl (fun s c => F p.1 c s) p.2) := by
  intro l
  induction l with
  | nil => intro p; rfl
  | cons hd tl ih => intro p; rw [List.foldl_cons, List.foldl_cons, ih]

/-- Flattening the Go nested loops: folding over a `flatMap` is the nested
fold. -/
theorem foldl_flatMap {α β σ : Type} (f : σ → β → σ) (g : α → List β) :
    ∀ (l : List α) (s : σ),
      (l.flatMap g).foldl f s = l.foldl (fun acc a => (g a).foldl f acc) s := by
  intro l
  induction l with
  | nil => intro s; rfl
  | cons hd tl ih =>
    intro s
    rw [List.flatMap_cons, List.foldl_append, List.foldl_cons, ih]

theorem mem_cellsL {mx my x y : ℤ} :
    (x, y) ∈ cellsL mx my ↔ 0 ≤ x ∧ x ≤ mx ∧ 0 ≤ y ∧ y ≤ my := by
  unfold cellsL
  constructor
  · intro h
    obtain ⟨i, hi, hmem⟩ := List.mem_flatMap.mp h
    obtain ⟨j, hj, hpair⟩ := List.mem_map.mp hmem
    rw [List.mem_range] at hi hj
    rw [Prod.mk.injEq] at hpair
    omega
  · rintro ⟨h1, h2, h3, h4⟩
    refine List.mem_flatMap.mpr ⟨x.toNat, List.mem_range.mpr (by omega), ?_⟩
    refine List.mem_map.mpr ⟨y.toNat, List.mem_range.mpr (by omega), ?_⟩
    simp only [Prod.mk.injEq]
    omega

/-- The central characterisation of the package's write loops.  A fold of
per-cell steps over a cell list: if a single step writes value `v c` at
cell `c` exactly when `P c` holds and `c` is inside the (fixed) rectangle,
and otherwise leaves every read unchanged, then after the fold the value
read at `(x, y)` is `v (x, y)` when `(x, y)` was visited, satisfies `P`
and is in the rectangle, and is the initial value otherwise. -/
theorem foldl_write_char {σ : Type} (step : σ → ℤ × ℤ → σ) (read : σ → ℤ → ℤ → ℕ)
    (P : ℤ × ℤ → Prop) [DecidablePred P] (v : ℤ × ℤ → ℕ)
    (inR : ℤ × ℤ → Prop) [DecidablePred inR] (I : σ → Prop)
    (hI : ∀ s c, I s → I (step s c))
    (hstep : ∀ s c x y, I s →
      read (step s c) x y =
        if c = (x, y) ∧ P c ∧ inR c then v c else read s x y) :
    ∀ (L : List (ℤ × ℤ)) (s : σ) (x y : ℤ), I s →
      read (L.foldl step s) x y =
        if (x, y) ∈ L ∧ P (x, y) ∧ inR (x, y) then v (x, y) else read s x y := by
  intro L
  induction L with
  | nil => intro s x y _; simp
  | cons hd tl ih =>
    intro s x y hs
    rw [List.foldl_cons, ih (step s hd) x y (hI s hd hs), hstep s hd x y hs]
    by_cases hhd : hd = (x, y)
    · subst hhd
      by_cases hP : P (x, y)
      · by_cases hin : inR (x, y)
        · by_cases hm : (x, y) ∈ tl <;> simp [hP, hin, hm]
        · simp [hP, hin]
      · simp [hP]
    · have hmem : (x, y) ∈ hd :: tl ↔ (x, y) ∈ tl := by
        simp [List.mem_cons]
        intro he; exact absurd he.symm hhd
      by_cases hc : (x, y) ∈ tl ∧ P (x, y) ∧ inR (x, y)
      · rw [if_pos hc, if_pos ⟨hmem.mpr hc.1, hc.2⟩]
      · rw [if_neg hc, if_neg (fun hc2 => hhd hc2.1),
          if_neg (fun hc2 => hc ⟨hmem.mp hc2.1, hc2.2⟩)]

theorem Paletted.setColorIndex_of_not_inRect (p : Paletted) {x y : ℤ} (c : ℕ)
    (h : ¬ GoPoint.inRect ⟨x, y⟩ p.rect) : p.setColorIndex x y c = p := by
  unfold Paletted.setColorIndex; rw [if_neg h]

/-- Conditional conjunct elimination for neighbour-count indicators: a
boundary guard `c` may be dropped when its failure already forces the
guarded read to be dead. -/
theorem ite_guard {c b : Prop} [Decidable c] [Decidable b] (h : ¬ c → ¬ b) :
    (if c ∧ b then (1 : ℕ) else 0) = if b then 1 else 0 := by
  by_cases hc : c
  · simp [hc]
  · simp [hc, h hc]

namespace conwayMin

theorem NewGeneration_colorIndexAt (r : GoRect) (x y : ℤ) :
    (NewGeneration r).colorIndexAt x y = 0 := by
  unfold NewGeneration Paletted.colorIndexAt
  split <;> rfl

/-- The transition rule the minimal engine's `Next` applies at one cell:
survival of a live cell with 2 or 3 live neighbours, or birth of a dead
cell with exactly 3 live neighbours (neighbour count per `nbalive`). -/
def stepRule (g : generation) (x y : ℤ) : Prop :=
  (g.colorIndexAt x y ≠ 0 ∧ (nbalive g x y = 2 ∨ nbalive g x y = 3)) ∨
  (g.colorIndexAt x y = 0 ∧ nbalive g x y = 3)

instance (g : generation) (x y : ℤ) : Decidable (stepRule g x y) := by
  unfold stepRule; infer_instance

/-- The two conditional writes in the body of `Next` fire for exactly one
mutually-exclusive condition each, so the body is a single guarded write
of palette index 1. -/
theorem nextCell_eq (g : generation) (x y : ℤ) (s : generation) :
    nextCell g x y s = if stepRule g x y then s.setColorIndex x y 1 else s := by
  unfold nextCell stepRule
  by_cases h1 : g.colorIndexAt x y ≠ 0 ∧ (nbalive g x y = 2 ∨ nbalive g x y = 3)
  · have h2 : ¬ (g.colorIndexAt x y = 0 ∧ nbalive g x y = 3) := fun h => h1.1 h.1
    simp only [if_pos h1, if_neg h2, if_pos (Or.inl h1)]
  · by_cases h2 : g.colorIndexAt x y = 0 ∧ nbalive g x y = 3
    · simp only [if_neg h1, if_pos h2, if_pos (Or.inr h2)]
    · have h3 : ¬ ((g.colorIndexAt x y ≠ 0 ∧ (nbalive g x y = 2 ∨ nbalive g x y = 3)) ∨
          (g.colorIndexAt x y = 0 ∧ nbalive g x y = 3)) := fun h => h.elim h1 h2
      simp only [if_neg h1, if_neg h2, if_neg h3]

/-- On a grid whose rectangle has min corner `(0, 0)` (the only shape the
package ever builds), the guarded neighbour count `nbalive` equals the
unguarded specification count `liveNeighbors`: every read a guard skips
would have returned 0 anyway, because `ColorIndexAt` returns 0 outside the
rectangle. -/
theorem nbalive_eq_liveNeighbors (g : generation)
    (hminx : g.rect.min.x = 0) (hminy : g.rect.min.y = 0) (x y : ℤ) :
    nbalive g x y = liveNeighbors g x y := by
  have hL : ¬ x > 0 → ∀ b, g.colorIndexAt (x-1) b = 0 := by
    intro hx b
    exact g.colorIndexAt_of_not_inRect (by rw [GoPoint.inRect_def]; omega)
  have hR : ¬ x < g.rect.max.x → ∀ b, g.colorIndexAt (x+1) b = 0 := by
    intro hx b
    exact g.colorIndexAt_of_not_inRect (by rw [GoPoint.inRect_def]; omega)
  have hU : ¬ y < g.rect.max.y → ∀ a, g.colorIndexAt a (y+1) = 0 := by
    intro hy a
    exact g.colorIndexAt_of_not_inRect (by rw [GoPoint.inRect_def]; omega)
  have hD : ¬ y > 0 → ∀ a, g.colorIndexAt a (y-1) = 0 := by
    intro hy a
    exact g.colorIndexAt_of_not_inRect (by rw [GoPoint.inRect_def]; omega)
  unfold nbalive liveNeighbors
  rw [ite_guard (fun hx => by simp [hL hx]),
      ite_guard (fun hx => by simp [hR hx]),
      ite_guard (fun hx => by simp [hL hx]),
      ite_guard (fun hx => by simp [hR hx]),
      ite_guard (fun hx => by simp [hL hx]),
      ite_guard (fun hx => by simp [hR hx])]
  by_cases hy1 : y < g.rect.max.y <;> by_cases hy2 : y > 0
  · rw [if_pos hy1, if_pos hy2]; ring
  · rw [if_pos hy1, if_neg hy2]; simp [hD hy2]; try ring
  · rw [if_neg hy1, if_pos hy2]; simp [hU hy1]; try ring
  · rw [if_neg hy1, if_neg hy2]; simp [hU hy1, hD hy2]; try ring

/-- Liveness characterisation of the minimal engine's `Next`: the
successor holds palette index 1 exactly at the in-rectangle cells where
the rule fires, and 0 everywhere else — in particular everywhere on the
last logical row (`y = Max.Y`) and column (`x = Max.X`), where the write
into the successor's half-open rectangle is a no-op. -/
theorem Next_colorIndexAt (g : generation) (x y : ℤ) :
    (Next g).colorIndexAt x y =
      if 0 ≤ x ∧ x < g.rect.max.x ∧ 0 ≤ y ∧ y < g.rect.max.y ∧ stepRule g x y
      then 1 else 0 := by
  have hflat : Next g =
      (cellsL g.rect.max.x g.rect.max.y).foldl
        (fun s c => nextCell g c.1 c.2 s)
        (NewGeneration ⟨⟨0, 0⟩, ⟨g.rect.max.x, g.rect.max.y⟩⟩) := by
    unfold Next cellsL
    rw [foldl_flatMap]
    congr 1
    funext acc i
    rw [List.foldl_map]
  rw [hflat]
  have hchar := foldl_write_char (σ := Paletted)
    (fun s c => nextCell g c.1 c.2 s) Paletted.colorIndexAt
    (fun c => stepRule g c.1 c.2) (fun _ => 1)
    (fun c => GoPoint.inRect ⟨c.1, c.2⟩ ⟨⟨0, 0⟩, ⟨g.rect.max.x, g.rect.max.y⟩⟩)
    (fun s => s.stride = g.rect.max.x ∧
      s.rect = ⟨⟨0, 0⟩, ⟨g.rect.max.x, g.rect.max.y⟩⟩)
    (by
      intro s c hs
      dsimp only
      rw [nextCell_eq]
      split
      · exact ⟨by rw [Paletted.setColorIndex_stride]; exact hs.1,
          by rw [Paletted.setColorIndex_rect]; exact hs.2⟩
      · exact hs)
    (by
      intro s c x y hs
      obtain ⟨a, b⟩ := c
      dsimp only
      rw [nextCell_eq]
      by_cases hr : stepRule g a b
      · rw [if_pos hr]
        by_cases he : a = x ∧ b = y
        · obtain ⟨hea, heb⟩ := he
          subst hea; subst heb
          by_cases hin : GoPoint.inRect ⟨a, b⟩ s.rect
          · rw [s.colorIndexAt_setColorIndex_self 1 hin,
              if_pos ⟨rfl, hr, hs.2 ▸ hin⟩]
          · rw [s.setColorIndex_of_not_inRect 1 hin,
              if_neg (fun hcon => hin (hs.2 ▸ hcon.2.2))]
        · rw [s.colorIndexAt_setColorIndex_ne (by rw [hs.1, hs.2]; simp) 1 he,
            if_neg (fun hcon => he (Prod.mk.injEq .. ▸ hcon.1))]
      · rw [if_neg hr, if_neg (fun hcon => hr hcon.2.1)])
  rw [hchar _ _ x y ⟨rfl, rfl⟩, NewGeneration_colorIndexAt]
  dsimp only
  have hiff : ((x, y) ∈ cellsL g.rect.max.x g.rect.max.y ∧ stepRule g x y ∧
      GoPoint.inRect ⟨x, y⟩ ⟨⟨0, 0⟩, ⟨g.rect.max.x, g.rect.max.y⟩⟩) ↔
      (0 ≤ x ∧ x < g.rect.max.x ∧ 0 ≤ y ∧ y < g.rect.max.y ∧ stepRule g x y) := by
    rw [mem_cellsL, GoPoint.inRect_def]
    dsimp only
    constructor
    · rintro ⟨hm, hrule, hin⟩
      exact ⟨by omega, by omega, by omega, by omega, hrule⟩
    · rintro ⟨h1, h2, h3, h4, hrule⟩
      exact ⟨⟨by omega, by omega, by omega, by omega⟩, hrule, by omega, by omega,
        by omega, by omega⟩
  rw [if_congr hiff rfl rfl]

/-- Characterisation of the minimal engine's `Set` for an accepted
contents list: cell `(x, y)` ends up live exactly when it is inside the
half-open rectangle and the flat entry at index `y*Rect.Max.X + x` is
true; other cells keep whatever the generation already held. -/
theorem Set_colorIndexAt (g : generation) (contents : List Bool)
    (hW : g.rect.max.x - g.rect.min.x ≤ g.stride)
    (hlen : (contents.length : ℤ) =
      (1 + g.rect.max.y - g.rect.min.y) * (1 + g.rect.max.x - g.rect.min.x))
    (x y : ℤ) :
    (Set g contents).1.colorIndexAt x y =
      if (0 ≤ x ∧ x ≤ g.rect.max.x ∧ 0 ≤ y ∧ y ≤ g.rect.max.y) ∧
         contents.getD (y * g.rect.max.x + x).toNat false = true ∧
         GoPoint.inRect ⟨x, y⟩ g.rect
      then 1 else g.colorIndexAt x y := by
  unfold Set
  rw [if_neg (by rw [hlen]; exact fun h => h rfl)]
  have hflat :
      (List.range (g.rect.max.x + 1).toNat).foldl
        (fun acc (i : ℕ) =>
          (List.range (g.rect.max.y + 1).toNat).foldl
            (fun acc2 (j : ℕ) =>
              if contents.getD ((j : ℤ) * g.rect.max.x + (i : ℤ)).toNat false
              then acc2.setColorIndex (i : ℤ) (j : ℤ) 1 else acc2) acc)
        g =
      (cellsL g.rect.max.x g.rect.max.y).foldl
        (fun s c =>
          if contents.getD (c.2 * g.rect.max.x + c.1).toNat false
          then s.setColorIndex c.1 c.2 1 else s) g := by
    unfold cellsL
    rw [foldl_flatMap]
    congr 1
    funext acc i
    rw [List.foldl_map]
  rw [hflat]
  have hchar := foldl_write_char (σ := Paletted)
    (fun s c =>
      if contents.getD (c.2 * g.rect.max.x + c.1).toNat false
      then s.setColorIndex c.1 c.2 1 else s)
    Paletted.colorIndexAt
    (fun c => contents.getD (c.2 * g.rect.max.x + c.1).toNat false = true)
    (fun _ => 1)
    (fun c => GoPoint.inRect ⟨c.1, c.2⟩ g.rect)
    (fun s => s.stride = g.stride ∧ s.rect = g.rect)
    (by
      intro s c hs
      dsimp only
      split
      · exact ⟨by rw [Paletted.setColorIndex_stride]; exact hs.1,
          by rw [Paletted.setColorIndex_rect]; exact hs.2⟩
      · exact hs)
    (by
      intro s c x y hs
      obtain ⟨a, b⟩ := c
      dsimp only
      by_cases hr : contents.getD (b * g.rect.max.x + a).toNat false = true
      · rw [if_pos hr]
        by_cases he : a = x ∧ b = y
        · obtain ⟨hea, heb⟩ := he
          subst hea; subst heb
          by_cases hin : GoPoint.inRect ⟨a, b⟩ s.rect
          · rw [s.colorIndexAt_setColorIndex_self 1 hin,
              if_pos ⟨rfl, hr, hs.2 ▸ hin⟩]
          · rw [s.setColorIndex_of_not_inRect 1 hin,
              if_neg (fun hcon => hin (hs.2 ▸ hcon.2.2))]
        · rw [s.colorIndexAt_setColorIndex_ne (by rw [hs.1, hs.2]; exact hW) 1 he,
            if_neg (fun hcon => he (Prod.mk.injEq .. ▸ hcon.1))]
      · rw [if_neg hr, if_neg (fun hcon => hr hcon.2.1)])
  rw [hchar _ _ x y ⟨rfl, rfl⟩]
  dsimp only
  rw [if_congr (by rw [mem_cellsL]) rfl rfl]

end conwayMin

namespace conway

/-!
## The aspect-ratio / color-model engine

Embedding of the package file with `farestPoint`, `EuclideanDistance`,
`AspectRatio` and the `generation` struct carrying ratio, color model,
generation ordinal and center.
-/

/-- `farestPoint(p, r)`: the corner chosen by the source's quadrant test,
which compares `p` against `(r.Max - r.Min)/2` with Go integer (truncating)
division.  The Go function also returns an `error` which is always `nil`
(the containment check is commented out in the source), so only the point
is modelled. -/
def farestPoint (p : GoPoint) (r : GoRect) : GoPoint :=
  if p.y ≥ (r.max.y - r.min.y).tdiv 2 then
    if p.x ≥ (r.max.x - r.min.x).tdiv 2 then ⟨r.min.x, r.min.y⟩
    else ⟨r.max.x, r.min.y⟩
  else
    if p.x ≥ (r.max.x - r.min.x).tdiv 2 then ⟨r.min.x, r.max.y⟩
    else ⟨r.max.x, r.max.y⟩

/-- The squared Euclidean distance between two points, an exact integer.
Used to state geometric facts without real-number computation. -/
def sqDist (p q : GoPoint) : ℤ :=
  (p.x - q.x) * (p.x - q.x) + (p.y - q.y) * (p.y - q.y)

/-- `EuclideanDistance(p1, p2)`: the source computes
`math.Sqrt(math.Pow(float64(p1.X-p2.X), 2) + math.Pow(float64(p1.Y-p2.Y), 2))`
in `float64`; it is modelled with exact real arithmetic. -/
noncomputable def EuclideanDistance (p1 p2 : GoPoint) : ℝ :=
  Real.sqrt ((((p1.x - p2.x) : ℤ) : ℝ) ^ 2 + (((p1.y - p2.y) : ℤ) : ℝ) ^ 2)

/-- `AspectRatio` with integer magnification factors `X`, `Y`. -/
structure AspectRatio where
  X : ℤ
  Y : ℤ
deriving DecidableEq

/-- The engine's `generation`: a paletted image plus aspect ratio, color
model name, 1-based ordinal among the total generation count, and the
center used by the radial model.  (The Go value also carries the color
palette, which the engine logic never inspects; it is omitted, as in
`Paletted`.) -/
structure generation where
  img : Paletted
  ratio : AspectRatio
  model : String
  nbgeneration : ℤ
  nbgenerations : ℤ
  center : GoPoint

/-- The `nbpixels` expression of `NewGeneration`:
`(1 + rectangle.Max.Y) * ratio.Y * (1 + rectangle.Max.X) * ratio.X`. -/
def nbpixels (rectangle : GoRect) (ratio : AspectRatio) : ℤ :=
  (1 + rectangle.max.y) * ratio.Y * (1 + rectangle.max.x) * ratio.X

/-- `NewGeneration(rectangle, palette, ratio, model, nbgeneration,
nbgenerations)`: a zero-filled buffer with
`Stride: 1 + (rectangle.Max.X - rectangle.Min.X) * ratio.X` and the
rectangle scaled componentwise by the ratio.  The center starts at the
zero value of `image.Point`. -/
def NewGeneration (rectangle : GoRect) (ratio : AspectRatio) (model : String)
    (nbgeneration nbgenerations : ℤ) : generation :=
  { img := { pix := fun _ => 0,
             stride := 1 + (rectangle.max.x - rectangle.min.x) * ratio.X,
             rect := ⟨⟨rectangle.min.x * ratio.X, rectangle.min.y * ratio.Y⟩,
                      ⟨rectangle.max.x * ratio.X, rectangle.max.y * ratio.Y⟩⟩ },
    ratio := ratio, model := model,
    nbgeneration := nbgeneration, nbgenerations := nbgenerations,
    center := ⟨0, 0⟩ }

/-- `NewGeneration` preceded by the implicit behaviour of
`make([]uint8, nbpixels)`: a negative length makes the Go runtime panic,
modelled as an error; otherwise creation always succeeds (the source
performs no validation of its own). -/
def NewGenerationChecked (rectangle : GoRect) (ratio : AspectRatio) (model : String)
    (nbgeneration nbgenerations : ℤ) : Except String generation :=
  if nbpixels rectangle ratio < 0 then
    Except.error "panic: makeslice: len out of range"
  else
    Except.ok (NewGeneration rectangle ratio model nbgeneration nbgenerations)

/-- `(g *generation).ColorIndexAt(x, y)`: reads the underlying image at
`(x*ratio.X, y*ratio.Y)`. -/
def ColorIndexAt (g : generation) (x y : ℤ) : ℕ :=
  g.img.colorIndexAt (x * g.ratio.X) (y * g.ratio.Y)

/-- `(g *generation).SetColorIndex(x, y, c)`: writes `c` to every pixel of
the `ratio.X` by `ratio.Y` block of the underlying image representing the
logical cell `(x, y)`. -/
def SetColorIndex (g : generation) (x y : ℤ) (c : ℕ) : generation :=
  { g with img :=
      ((List.range g.ratio.X.toNat).foldl
        (fun im (xoffset : ℕ) =>
          (List.range g.ratio.Y.toNat).foldl
            (fun im2 (yoffset : ℕ) =>
              im2.setColorIndex (x * g.ratio.X + (xoffset : ℤ))
                (y * g.ratio.Y + (yoffset : ℤ)) c) im)
        g.img) }

/-- `(g *generation).SetCenter(p)`. -/
def SetCenter (g : generation) (p : GoPoint) : generation :=
  { g with center := p }

/-- `(g *generation).nbalive(x, y)`: the guarded 8-neighbour count, with
the guards evaluated on the transformed coordinates `xt = x*ratio.X`,
`yt = y*ratio.Y` against the physical rectangle, exactly as in the source. -/
def nbalive (g : generation) (x y : ℤ) : ℕ :=
  (if y * g.ratio.Y < g.img.rect.max.y then
    (if ColorIndexAt g x (y+1) ≠ 0 then 1 else 0) +
    (if x * g.ratio.X > 0 ∧ ColorIndexAt g (x-1) (y+1) ≠ 0 then 1 else 0) +
    (if x * g.ratio.X < g.img.rect.max.x ∧ ColorIndexAt g (x+1) (y+1) ≠ 0 then 1 else 0)
   else 0) +
  (if y * g.ratio.Y > 0 then
    (if ColorIndexAt g x (y-1) ≠ 0 then 1 else 0) +
    (if x * g.ratio.X > 0 ∧ ColorIndexAt g (x-1) (y-1) ≠ 0 then 1 else 0) +
    (if x * g.ratio.X < g.img.rect.max.x ∧ ColorIndexAt g (x+1) (y-1) ≠ 0 then 1 else 0)
   else 0) +
  (if x * g.ratio.X > 0 ∧ ColorIndexAt g (x-1) y ≠ 0 then 1 else 0) +
  (if x * g.ratio.X < g.img.rect.max.x ∧ ColorIndexAt g (x+1) y ≠ 0 then 1 else 0)

/-- The gradient-model color:
`uint8(g.nbgeneration * 255.0 / g.nbgenerations)`.  In Go this is integer
arithmetic (the untyped constant `255.0` takes type `int`), i.e. a
truncating division followed by the byte conversion. -/
def gradColor (g : generation) : ℕ := u8 ((g.nbgeneration * 255).tdiv g.nbgenerations)

/-- The radial-model ramp before the byte conversion:
`255 * EuclideanDistance(center, cell) / EuclideanDistance(center, farest)`,
truncated to an integer (the value is nonnegative, so `floor` is Go's
truncation toward zero). -/
noncomputable def radialIndex (center cell farest : GoPoint) : ℤ :=
  ⌊255 * EuclideanDistance center cell / EuclideanDistance center farest⌋

/-- The radial-model color of logical cell `(x, y)`: the byte conversion
of `radialIndex`, with `farest` the corner `farestPoint` picks for the
center inside the logical rectangle (the physical rectangle divided by the
ratio), exactly as recomputed per cell in the source's `Next` and `Set`. -/
noncomputable def radialColor (g : generation) (x y : ℤ) : ℕ :=
  u8 (radialIndex g.center ⟨x, y⟩
    (farestPoint g.center
      ⟨⟨g.img.rect.min.x.tdiv g.ratio.X, g.img.rect.min.y.tdiv g.ratio.Y⟩,
       ⟨g.img.rect.max.x.tdiv g.ratio.X, g.img.rect.max.y.tdiv g.ratio.Y⟩⟩))

/-- The value of the local variable `c` of `Next` (and of `Set`) when the
writes for cell `(x, y)` execute: `c` starts at 0, is set once before the
loops when the model is `"gradient"`, and is recomputed for every cell
when the model is `"radial"`; with any other model name it stays 0. -/
noncomputable def cellColor (g : generation) (x y : ℤ) : ℕ :=
  if g.model = "gradient" then gradColor g
  else if g.model = "radial" then radialColor g x y
  else 0

/-- The loop body of `Next` at cell `(x, y)`: survival and birth write
`cellColor` into the successor `nxt`, reading only from `g`. -/
noncomputable def applyRules (g : generation) (x y : ℤ) (nxt : generation) : generation :=
  let alive := nbalive g x y
  let c := cellColor g x y
  let nxt1 := if ColorIndexAt g x y ≠ 0 ∧ (alive = 2 ∨ alive = 3)
              then SetColorIndex nxt x y c else nxt
  if ColorIndexAt g x y = 0 ∧ alive = 3 then SetColorIndex nxt1 x y c else nxt1

/-- The double loop of `Next`, threading the read generation and the
successor buffer as an explicit pair: each iteration reads from the first
component and writes to the second (`cellsL` enumerates exactly the cells
of the nested Go loops `0 ≤ x ≤ Max.X/ratio.X`, `0 ≤ y ≤ Max.Y/ratio.Y`). -/
noncomputable def NextState (g nxt : generation) : generation × generation :=
  (cellsL (g.img.rect.max.x.tdiv g.ratio.X) (g.img.rect.max.y.tdiv g.ratio.Y)).foldl
    (fun q c => (q.1, applyRules q.1 c.1 c.2 q.2)) (g, nxt)

/-- `(g *generation).Next()`: a fresh generation on the logical rectangle
(the physical one divided by the ratio), same ratio, model and palette,
ordinal `1 + g.nbgeneration`, same center, filled by the rule loop. -/
noncomputable def Next (g : generation) : generation :=
  (NextState g
    (SetCenter
      (NewGeneration
        ⟨⟨g.img.rect.min.x.tdiv g.ratio.X, g.img.rect.min.y.tdiv g.ratio.Y⟩,
         ⟨g.img.rect.max.x.tdiv g.ratio.X, g.img.rect.max.y.tdiv g.ratio.Y⟩⟩
        g.ratio g.model (1 + g.nbgeneration) g.nbgenerations)
      g.center)).2

/-- `(g *generation).Set(contents)`: the dimension check against the
logical cell count, then the bulk write loop; entry `(x, y)` reads
`contents[y*(Max.X/ratio.X) + x]` and writes `cellColor` (which depends
only on metadata `Set` never modifies).  `true` in the second component
models the `"Mismatched dimensions"` error, in which case the generation
is returned untouched.  Out-of-range reads default to `false` in the
model; for the rectangles the callers build every executed read is in
range. -/
noncomputable def Set (g : generation) (contents : List Bool) : generation × Bool :=
  if (contents.length : ℤ) ≠
      (1 + g.img.rect.max.y.tdiv g.ratio.Y - g.img.rect.min.y.tdiv g.ratio.Y) *
      (1 + g.img.rect.max.x.tdiv g.ratio.X - g.img.rect.min.x.tdiv g.ratio.X)
  then (g, true)
  else
    ((cellsL (g.img.rect.max.x.tdiv g.ratio.X) (g.img.rect.max.y.tdiv g.ratio.Y)).foldl
      (fun acc c =>
        if contents.getD (c.2 * (g.img.rect.max.x.tdiv g.ratio.X) + c.1).toNat false
        then SetColorIndex acc c.1 c.2 (cellColor g c.1 c.2) else acc) g, false)

/-- The `Conway` game struct.  The generations slice
`make([]*generation, generations)` is modelled as its index-to-value map
(`none` is Go's `nil` pointer); `nbgenerations` records its length. -/
structure Conway where
  width : ℤ
  height : ℤ
  nbgenerations : ℤ
  generations : ℕ → Option generation

/-- `NewConway(width, height, generations, contents)`: allocates the slots
and stores the initial generation in slot 0. -/
noncomputable def NewConway (width height : ℤ) (gens : ℤ) (contents : generation) : Conway :=
  { width := width, height := height, nbgenerations := gens,
    generations := Function.update (fun _ => none) 0 (some contents) }

/-- `(game *Conway).Run()`: `for i := 1; i < nbgenerations; i++`
set slot `i` to `Next` of slot `i-1`.  (`Option.map` propagates a `nil`
slot, which never occurs in the executed range.) -/
noncomputable def Run (game : Conway) : Conway :=
  { game with generations :=
      ((List.range' 1 (game.nbgenerations - 1).toNat).foldl
        (fun gens i => Function.update gens i ((gens (i - 1)).map Next))
        game.generations) }

end conway

namespace conway

/-!
## Lemmas about the aspect-ratio engine
-/

theorem SetColorIndex_ratio (g : generation) (x y : ℤ) (c : ℕ) :
    (SetColorIndex g x y c).ratio = g.ratio := rfl

theorem SetColorIndex_model (g : generation) (x y : ℤ) (c : ℕ) :
    (SetColorIndex g x y c).model = g.model := rfl

theorem SetColorIndex_nbgeneration (g : generation) (x y : ℤ) (c : ℕ) :
    (SetColorIndex g x y c).nbgeneration = g.nbgeneration := rfl

theorem SetColorIndex_img_stride (g : generation) (x y : ℤ) (c : ℕ) :
    (SetColorIndex g x y c).img.stride = g.img.stride := by
  unfold SetColorIndex
  refine foldl_invariant (fun im => im.stride = g.img.stride) _ ?_ _ g.img rfl
  intro im a him
  refine foldl_invariant (fun im2 => im2.stride = g.img.stride) _ ?_ _ im him
  intro im2 b him2
  rw [Paletted.setColorIndex_stride]; exact him2

theorem SetColorIndex_img_rect (g : generation) (x y : ℤ) (c : ℕ) :
    (SetColorIndex g x y c).img.rect = g.img.rect := by
  unfold SetColorIndex
  refine foldl_invariant (fun im => im.rect = g.img.rect) _ ?_ _ g.img rfl
  intro im a him
  refine foldl_invariant (fun im2 => im2.rect = g.img.rect) _ ?_ _ im him
  intro im2 b him2
  rw [Paletted.setColorIndex_rect]; exact him2

/-- The rule predicate the engine's `Next` applies at one cell, stated
with the engine's own reads and neighbour count. -/
def stepRule (g : generation) (x y : ℤ) : Prop :=
  (ColorIndexAt g x y ≠ 0 ∧ (nbalive g x y = 2 ∨ nbalive g x y = 3)) ∨
  (ColorIndexAt g x y = 0 ∧ nbalive g x y = 3)

instance (g : generation) (x y : ℤ) : Decidable (stepRule g x y) := by
  unfold stepRule; infer_instance

/-- The two conditional writes of the `Next` loop body collapse to one
guarded write of `cellColor` (the conditions are mutually exclusive). -/
theorem applyRules_eq (g : generation) (x y : ℤ) (s : generation) :
    applyRules g x y s =
      if stepRule g x y then SetColorIndex s x y (cellColor g x y) else s := by
  unfold applyRules stepRule
  by_cases h1 : ColorIndexAt g x y ≠ 0 ∧ (nbalive g x y = 2 ∨ nbalive g x y = 3)
  · have h2 : ¬ (ColorIndexAt g x y = 0 ∧ nbalive g x y = 3) := fun h => h1.1 h.1
    simp only [if_pos h1, if_neg h2, if_pos (Or.inl h1)]
  · by_cases h2 : ColorIndexAt g x y = 0 ∧ nbalive g x y = 3
    · simp only [if_neg h1, if_pos h2, if_pos (Or.inr h2)]
    · have h3 : ¬ ((ColorIndexAt g x y ≠ 0 ∧ (nbalive g x y = 2 ∨ nbalive g x y = 3)) ∨
          (ColorIndexAt g x y = 0 ∧ nbalive g x y = 3)) := fun h => h.elim h1 h2
      simp only [if_neg h1, if_neg h2, if_neg h3]

/-- The rule loop threads the predecessor through unchanged: the first
component of `NextState` is the generation that was stepped, untouched. -/
theorem NextState_fst (g nxt : generation) : (NextState g nxt).1 = g := by
  unfold NextState
  rw [foldl_pair (fun (g1 : generation) (c : ℤ × ℤ) (s : generation) =>
    applyRules g1 c.1 c.2 s)]

/-- `NextState` acts on the successor buffer alone. -/
theorem NextState_snd (g nxt : generation) :
    (NextState g nxt).2 =
      (cellsL (g.img.rect.max.x.tdiv g.ratio.X) (g.img.rect.max.y.tdiv g.ratio.Y)).foldl
        (fun s c => applyRules g c.1 c.2 s) nxt := by
  unfold NextState
  rw [foldl_pair (fun (g1 : generation) (c : ℤ × ℤ) (s : generation) =>
    applyRules g1 c.1 c.2 s)]

theorem applyRules_meta (g x2 y2 : _) (s : generation) :
    (applyRules g x2 y2 s).ratio = s.ratio ∧ (applyRules g x2 y2 s).model = s.model ∧
    (applyRules g x2 y2 s).nbgeneration = s.nbgeneration ∧
    (applyRules g x2 y2 s).img.stride = s.img.stride ∧
    (applyRules g x2 y2 s).img.rect = s.img.rect := by
  rw [applyRules_eq]
  split
  · exact ⟨rfl, rfl, rfl, SetColorIndex_img_stride .., SetColorIndex_img_rect ..⟩
  · exact ⟨rfl, rfl, rfl, rfl, rfl⟩

theorem Next_nbgeneration (g : generation) :
    (Next g).nbgeneration = 1 + g.nbgeneration := by
  unfold Next
  rw [NextState_snd]
  exact foldl_invariant (fun (s : generation) => s.nbgeneration = 1 + g.nbgeneration)
    (fun s (c : ℤ × ℤ) => applyRules g c.1 c.2 s)
    (fun s c hs => ((applyRules_meta g c.1 c.2 s).2.2.1).trans hs) _ _ rfl

/-- All pixel values of a buffer lie in `{0, c}`. -/
def pixBounded (p : Paletted) (c : ℕ) : Prop := ∀ o, p.pix o = 0 ∨ p.pix o = c

theorem pixBounded_setColorIndex {p : Paletted} {c : ℕ} (h : pixBounded p c)
    (x y : ℤ) : pixBounded (p.setColorIndex x y c) c := by
  unfold Paletted.setColorIndex
  split
  · intro o
    dsimp only
    split
    · exact Or.inr rfl
    · exact h o
  · exact h

theorem pixBounded_SetColorIndex {s : generation} {c : ℕ} (h : pixBounded s.img c)
    (x y : ℤ) : pixBounded (SetColorIndex s x y c).img c := by
  unfold SetColorIndex
  refine foldl_invariant (fun im => pixBounded im c) _ ?_ _ s.img h
  intro im a him
  refine foldl_invariant (fun im2 => pixBounded im2 c) _ ?_ _ im him
  intro im2 b him2
  exact pixBounded_setColorIndex him2 _ _

theorem colorIndexAt_of_pixBounded {p : Paletted} {c : ℕ} (h : pixBounded p c)
    {x y : ℤ} (hne : p.colorIndexAt x y ≠ 0) : p.colorIndexAt x y = c := by
  unfold Paletted.colorIndexAt at hne ⊢
  split
  · next hin =>
    rw [if_pos hin] at hne
    exact (h _).resolve_left hne
  · next hin =>
    rw [if_neg hin] at hne
    exact absurd rfl hne

/-- Under the gradient model, `cellColor` is the constant `gradColor`. -/
theorem cellColor_gradient {g : generation} (hmodel : g.model = "gradient")
    (x y : ℤ) : cellColor g x y = gradColor g := by
  unfold cellColor
  rw [if_pos hmodel]

/-- Every pixel the gradient-model `Next` produces is either dead or
carries `gradColor` of the generation being stepped. -/
theorem Next_pixBounded {g : generation} (hmodel : g.model = "gradient") :
    pixBounded (Next g).img (gradColor g) := by
  unfold Next
  rw [NextState_snd]
  refine foldl_invariant (fun (s : generation) => pixBounded s.img (gradColor g))
    (fun s (c : ℤ × ℤ) => applyRules g c.1 c.2 s) ?_ _ _ ?_
  · intro s c hs
    dsimp only
    rw [applyRules_eq]
    split
    · rw [cellColor_gradient hmodel]
      exact pixBounded_SetColorIndex hs _ _
    · exact hs
  · intro o
    exact Or.inl rfl

/-- Every pixel the gradient-model `Set` produces on an initially blank
generation is either dead or carries `gradColor`. -/
theorem Set_pixBounded {g : generation} (hmodel : g.model = "gradient")
    (hfresh : ∀ o, g.img.pix o = 0) (contents : List Bool) :
    pixBounded (Set g contents).1.img (gradColor g) := by
  unfold Set
  split
  · exact fun o => Or.inl (hfresh o)
  · refine foldl_invariant (fun (s : generation) => pixBounded s.img (gradColor g))
      _ ?_ _ _ (fun o => Or.inl (hfresh o))
    intro s (c : ℤ × ℤ) hs
    dsimp only
    split
    · rw [cellColor_gradient hmodel]
      exact pixBounded_SetColorIndex hs _ _
    · exact hs

end conway

namespace conway

/-!
## Reduction of the engine at unit aspect ratio
-/

theorem ColorIndexAt_one {g : generation} (hr : g.ratio = ⟨1, 1⟩) (x y : ℤ) :
    ColorIndexAt g x y = g.img.colorIndexAt x y := by
  unfold ColorIndexAt
  rw [hr]
  dsimp only
  rw [mul_one, mul_one]

theorem SetColorIndex_one {g : generation} (hr : g.ratio = ⟨1, 1⟩) (x y : ℤ) (c : ℕ) :
    SetColorIndex g x y c = { g with img := g.img.setColorIndex x y c } := by
  unfold SetColorIndex
  rw [hr]
  dsimp only
  norm_num [List.range_succ]

theorem nbalive_one {g : generation} (hr : g.ratio = ⟨1, 1⟩) (x y : ℤ) :
    nbalive g x y = conwayMin.nbalive g.img x y := by
  unfold nbalive conwayMin.nbalive
  rw [hr]
  dsimp only
  simp only [mul_one, ColorIndexAt_one hr]

theorem stepRule_one {g : generation} (hr : g.ratio = ⟨1, 1⟩) (x y : ℤ) :
    stepRule g x y ↔ conwayMin.stepRule g.img x y := by
  unfold stepRule conwayMin.stepRule
  rw [ColorIndexAt_one hr, nbalive_one hr]

/-- A generation whose buffer is identically zero reads 0 everywhere. -/
theorem ColorIndexAt_of_zero_pix {g : generation} (h : ∀ o, g.img.pix o = 0)
    (x y : ℤ) : ColorIndexAt g x y = 0 := by
  unfold ColorIndexAt Paletted.colorIndexAt
  split
  · exact h _
  · rfl

/-- Liveness/color characterisation of the engine's `Next` at unit aspect
ratio on a standard rectangle: the successor reads `cellColor` at the
in-rectangle cells where the rule fires and 0 everywhere else.  In
particular a cell whose `cellColor` is 0 is dead in the successor even
when the rule fired for it. -/
theorem Next_colorIndexAt_one (g : generation) (hr : g.ratio = ⟨1, 1⟩)
    (hmin : g.img.rect.min = ⟨0, 0⟩) (x y : ℤ) :
    ColorIndexAt (Next g) x y =
      if 0 ≤ x ∧ x < g.img.rect.max.x ∧ 0 ≤ y ∧ y < g.img.rect.max.y ∧ stepRule g x y
      then cellColor g x y else 0 := by
  have hX : g.ratio.X = 1 := by rw [hr]
  have hY : g.ratio.Y = 1 := by rw [hr]
  have hmx : g.img.rect.max.x.tdiv g.ratio.X = g.img.rect.max.x := by
    rw [hX]; exact Int.tdiv_one _
  have hmy : g.img.rect.max.y.tdiv g.ratio.Y = g.img.rect.max.y := by
    rw [hY]; exact Int.tdiv_one _
  have hmnx : g.img.rect.min.x.tdiv g.ratio.X = 0 := by
    rw [hX, hmin]; rfl
  have hmny : g.img.rect.min.y.tdiv g.ratio.Y = 0 := by
    rw [hY, hmin]; rfl
  unfold Next
  rw [NextState_snd, hmx, hmy, hmnx, hmny]
  have hchar := foldl_write_char (σ := generation)
    (fun s (c : ℤ × ℤ) => applyRules g c.1 c.2 s)
    ColorIndexAt
    (fun c => stepRule g c.1 c.2)
    (fun c => cellColor g c.1 c.2)
    (fun c => GoPoint.inRect ⟨c.1, c.2⟩
      ⟨⟨0, 0⟩, ⟨g.img.rect.max.x, g.img.rect.max.y⟩⟩)
    (fun s => s.ratio = ⟨1, 1⟩ ∧ s.img.stride = 1 + g.img.rect.max.x ∧
      s.img.rect = ⟨⟨0, 0⟩, ⟨g.img.rect.max.x, g.img.rect.max.y⟩⟩)
    (by
      intro s c hs
      dsimp only
      rw [applyRules_eq]
      split
      · exact ⟨by rw [SetColorIndex_ratio]; exact hs.1,
          by rw [SetColorIndex_img_stride]; exact hs.2.1,
          by rw [SetColorIndex_img_rect]; exact hs.2.2⟩
      · exact hs)
    (by
      intro s c x y hs
      obtain ⟨a, b⟩ := c
      dsimp only
      rw [applyRules_eq]
      by_cases hrule : stepRule g a b
      · have hsr : ∀ t : Paletted, ({ s with img := t } : generation).ratio = ⟨1, 1⟩ :=
          fun t => hs.1
        rw [if_pos hrule, SetColorIndex_one hs.1, ColorIndexAt_one (hsr _)]
        dsimp only
        by_cases he : a = x ∧ b = y
        · obtain ⟨hea, heb⟩ := he
          subst hea; subst heb
          by_cases hin : GoPoint.inRect ⟨a, b⟩ s.img.rect
          · rw [s.img.colorIndexAt_setColorIndex_self _ hin,
              if_pos ⟨rfl, hrule, hs.2.2 ▸ hin⟩]
          · rw [s.img.setColorIndex_of_not_inRect _ hin,
              if_neg (fun hcon => hin (hs.2.2 ▸ hcon.2.2)), ColorIndexAt_one hs.1]
        · rw [s.img.colorIndexAt_setColorIndex_ne
              (by rw [hs.2.1, hs.2.2]; dsimp only; omega) _ he,
            if_neg (fun hcon => he (Prod.mk.injEq .. ▸ hcon.1)),
            ColorIndexAt_one hs.1]
      · rw [if_neg hrule, if_neg (fun hcon => hrule hcon.2.1)])
  rw [hchar _ _ x y
    (by
      refine ⟨hr, ?_, ?_⟩
      · unfold SetCenter NewGeneration
        dsimp only
        rw [hX]
        ring
      · unfold SetCenter NewGeneration
        dsimp only
        rw [hX, hY]
        simp)]
  rw [ColorIndexAt_of_zero_pix (fun o => rfl)]
  dsimp only
  have hiff : ((x, y) ∈ cellsL g.img.rect.max.x g.img.rect.max.y ∧ stepRule g x y ∧
      GoPoint.inRect ⟨x, y⟩ ⟨⟨0, 0⟩, ⟨g.img.rect.max.x, g.img.rect.max.y⟩⟩) ↔
      (0 ≤ x ∧ x < g.img.rect.max.x ∧ 0 ≤ y ∧ y < g.img.rect.max.y ∧ stepRule g x y) := by
    rw [mem_cellsL, GoPoint.inRect_def]
    dsimp only
    constructor
    · rintro ⟨hm, hrule, hin⟩
      exact ⟨by omega, by omega, by omega, by omega, hrule⟩
    · rintro ⟨h1, h2, h3, h4, hrule⟩
      exact ⟨⟨by omega, by omega, by omega, by omega⟩, hrule, by omega, by omega,
        by omega, by omega⟩
  rw [if_congr hiff rfl rfl]

end conway

namespace conway

/-!
## The simulation driver
-/

/-- After `Run`, slot `i` of a game built by `NewConway` holds the `i`-th
iterate of `Next` on the supplied initial generation (slot 0 untouched). -/
theorem Run_generations (w h : ℤ) (n : ℤ) (g0 : generation) (hn : 1 ≤ n) :
    ∀ i : ℕ, (i : ℤ) < n →
      (Run (NewConway w h n g0)).generations i = some (Next^[i] g0) := by
  have key : ∀ m : ℕ, ∀ i : ℕ, i ≤ m →
      ((List.range' 1 m).foldl
        (fun gens k => Function.update gens k ((gens (k - 1)).map Next))
        (Function.update (fun _ => none) 0 (some g0))) i = some (Next^[i] g0) := by
    intro m
    induction m with
    | zero =>
      intro i hi
      have hi0 : i = 0 := Nat.le_zero.mp hi
      subst hi0
      simp [Function.update]
    | succ m ih =>
      intro i hi
      rw [List.range'_1_concat, List.foldl_append, List.foldl_cons, List.foldl_nil]
      by_cases hieq : i = 1 + m
      · subst hieq
        rw [Function.update_same]
        have hm : (1 + m) - 1 = m := by omega
        rw [hm, ih m le_rfl]
        have : (1 + m) = m + 1 := by omega
        rw [this, Function.iterate_succ_apply']
        rfl
      · rw [Function.update_noteq hieq, ih i (by omega)]
  intro i hi
  unfold Run NewConway
  dsimp only
  exact key ((n - 1).toNat) i (by omega)

/-!
## Dead fringe and round trip of the block write (last logical row/column)
-/

/-- Writing at the last logical row `y = h` is a no-op: every pixel of the
target block lies at physical `y ≥ h*ratio.Y = Rect.Max.Y`, outside the
half-open rectangle. -/
theorem SetColorIndex_last_row (g : generation) (w h rx ry : ℤ)
    (hrect : g.img.rect = ⟨⟨0, 0⟩, ⟨w * rx, h * ry⟩⟩)
    (hratio : g.ratio = ⟨rx, ry⟩) (x : ℤ) (c : ℕ) :
    SetColorIndex g x h c = g := by
  unfold SetColorIndex
  have himg :
      ((List.range g.ratio.X.toNat).foldl
        (fun im (xoffset : ℕ) =>
          (List.range g.ratio.Y.toNat).foldl
            (fun im2 (yoffset : ℕ) =>
              im2.setColorIndex (x * g.ratio.X + (xoffset : ℤ))
                (h * g.ratio.Y + (yoffset : ℤ)) c) im)
        g.img) = g.img := by
    refine foldl_invariant (fun im => im = g.img) _ ?_ _ g.img rfl
    intro im a him
    refine foldl_invariant (fun im2 => im2 = g.img) _ ?_ _ im him
    intro im2 b him2
    rw [him2]
    apply Paletted.setColorIndex_of_not_inRect
    rw [hrect, GoPoint.inRect_def, hratio]
    dsimp only
    intro hcon
    omega
  rw [himg]

/-- Writing at the last logical column `x = w` is likewise a no-op. -/
theorem SetColorIndex_last_col (g : generation) (w h rx ry : ℤ)
    (hrect : g.img.rect = ⟨⟨0, 0⟩, ⟨w * rx, h * ry⟩⟩)
    (hratio : g.ratio = ⟨rx, ry⟩) (y : ℤ) (c : ℕ) :
    SetColorIndex g w y c = g := by
  unfold SetColorIndex
  have himg :
      ((List.range g.ratio.X.toNat).foldl
        (fun im (xoffset : ℕ) =>
          (List.range g.ratio.Y.toNat).foldl
            (fun im2 (yoffset : ℕ) =>
              im2.setColorIndex (w * g.ratio.X + (xoffset : ℤ))
                (y * g.ratio.Y + (yoffset : ℤ)) c) im)
        g.img) = g.img := by
    refine foldl_invariant (fun im => im = g.img) _ ?_ _ g.img rfl
    intro im a him
    refine foldl_invariant (fun im2 => im2 = g.img) _ ?_ _ im him
    intro im2 b him2
    rw [him2]
    apply Paletted.setColorIndex_of_not_inRect
    rw [hrect, GoPoint.inRect_def, hratio]
    dsimp only
    intro hcon
    omega
  rw [himg]

/-- Reads on the last logical row return 0: the probed pixel
`(x*ratio.X, h*ratio.Y)` is outside the half-open rectangle. -/
theorem ColorIndexAt_last_row (g : generation) (w h rx ry : ℤ)
    (hrect : g.img.rect = ⟨⟨0, 0⟩, ⟨w * rx, h * ry⟩⟩)
    (hratio : g.ratio = ⟨rx, ry⟩) (x : ℤ) :
    ColorIndexAt g x h = 0 := by
  unfold ColorIndexAt
  refine Paletted.colorIndexAt_of_not_inRect _ ?_
  rw [hrect, GoPoint.inRect_def, hratio]
  dsimp only
  intro hcon
  omega

/-- Reads on the last logical column return 0. -/
theorem ColorIndexAt_last_col (g : generation) (w h rx ry : ℤ)
    (hrect : g.img.rect = ⟨⟨0, 0⟩, ⟨w * rx, h * ry⟩⟩)
    (hratio : g.ratio = ⟨rx, ry⟩) (y : ℤ) :
    ColorIndexAt g w y = 0 := by
  unfold ColorIndexAt
  refine Paletted.colorIndexAt_of_not_inRect _ ?_
  rw [hrect, GoPoint.inRect_def, hratio]
  dsimp only
  intro hcon
  omega

/-- The `SetColorIndex`-then-`ColorIndexAt` round trip returns the written
index for interior cells (`0 ≤ x < w`, `0 ≤ y < h`). -/
theorem ColorIndexAt_SetColorIndex (g : generation) (w h rx ry : ℤ)
    (hrx : 1 ≤ rx) (hry : 1 ≤ ry)
    (hrect : g.img.rect = ⟨⟨0, 0⟩, ⟨w * rx, h * ry⟩⟩)
    (hratio : g.ratio = ⟨rx, ry⟩) (x y : ℤ) (c : ℕ)
    (hx1 : 0 ≤ x) (hx2 : x < w) (hy1 : 0 ≤ y) (hy2 : y < h) :
    ColorIndexAt (SetColorIndex g x y c) x y = c := by
  have hin : GoPoint.inRect ⟨x * rx, y * ry⟩ g.img.rect := by
    rw [hrect, GoPoint.inRect_def]
    dsimp only
    refine ⟨by positivity, by exact mul_lt_mul_of_pos_right hx2 (by omega), by positivity,
      by exact mul_lt_mul_of_pos_right hy2 (by omega)⟩
  have hkeep : ∀ (p : Paletted) (a b : ℤ) (o : ℤ), p.pix o = c →
      (p.setColorIndex a b c).pix o = c := by
    intro p a b o hp
    unfold Paletted.setColorIndex
    split
    · dsimp only
      split
      · rfl
      · exact hp
    · exact hp
  have hrectS := SetColorIndex_img_rect g x y c
  have hstrideS := SetColorIndex_img_stride g x y c
  unfold ColorIndexAt Paletted.colorIndexAt
  rw [SetColorIndex_ratio, hrectS, hratio]
  dsimp only
  rw [if_pos hin]
  have hΩ : Paletted.pixOffset (SetColorIndex g x y c).img (x * rx) (y * ry) =
      Paletted.pixOffset g.img (x * rx) (y * ry) := by
    unfold Paletted.pixOffset
    rw [hrectS, hstrideS]
  rw [hΩ]
  -- peel the first write of the block, then show all later writes keep it
  unfold SetColorIndex
  dsimp only
  rw [hratio]
  dsimp only
  obtain ⟨kx, hkx⟩ : ∃ kx, rx.toNat = kx + 1 := ⟨rx.toNat - 1, by omega⟩
  obtain ⟨ky, hky⟩ : ∃ ky, ry.toNat = ky + 1 := ⟨ry.toNat - 1, by omega⟩
  set o0 := Paletted.pixOffset g.img (x * rx) (y * ry) with ho0
  have hfirst : (g.img.setColorIndex (x * rx + ((0 : ℕ) : ℤ)) (y * ry + ((0 : ℕ) : ℤ)) c).pix
      o0 = c := by
    unfold Paletted.setColorIndex
    rw [if_pos (by simpa using hin)]
    dsimp only
    rw [if_pos (by rw [ho0]; simp)]
  rw [hkx, List.range_succ_eq_map, List.foldl_cons]
  refine foldl_invariant (fun (im : Paletted) => im.pix o0 = c) _ ?_ _ _ ?_
  · intro im a him
    refine foldl_invariant (fun (im2 : Paletted) => im2.pix o0 = c) _ ?_ _ im him
    intro im2 b him2
    exact hkeep _ _ _ _ him2
  · rw [hky, List.range_succ_eq_map, List.foldl_cons]
    refine foldl_invariant (fun (im2 : Paletted) => im2.pix o0 = c) _ ?_ _ _ hfirst
    intro im2 b him2
    exact hkeep _ _ _ _ him2

end conway

/-- Two buffers with pointwise-equivalent liveness have equal neighbour
counts. -/
theorem liveNeighbors_congr {p q : Paletted}
    (h : ∀ a b : ℤ, p.colorIndexAt a b ≠ 0 ↔ q.colorIndexAt a b ≠ 0) (x y : ℤ) :
    liveNeighbors p x y = liveNeighbors q x y := by
  unfold liveNeighbors
  rw [if_congr (h x (y+1)) rfl rfl, if_congr (h (x-1) (y+1)) rfl rfl,
    if_congr (h (x+1) (y+1)) rfl rfl, if_congr (h x (y-1)) rfl rfl,
    if_congr (h (x-1) (y-1)) rfl rfl, if_congr (h (x+1) (y-1)) rfl rfl,
    if_congr (h (x-1) y) rfl rfl, if_congr (h (x+1) y) rfl rfl]

namespace conway

/-- The dimension check of the engine's `Set` on a standard generation:
the error fires exactly when the length differs from `(1+h)*(1+w)`, and on
error the generation is returned untouched. -/
theorem Set_error (g : generation) (w h rx ry : ℤ) (hrx : 1 ≤ rx) (hry : 1 ≤ ry)
    (hrect : g.img.rect = ⟨⟨0, 0⟩, ⟨w * rx, h * ry⟩⟩)
    (hratio : g.ratio = ⟨rx, ry⟩) (contents : List Bool) :
    ((Set g contents).2 = true ↔ (contents.length : ℤ) ≠ (1 + h) * (1 + w)) ∧
    ((Set g contents).2 = true → (Set g contents).1 = g) := by
  have hdim : (1 + g.img.rect.max.y.tdiv g.ratio.Y - g.img.rect.min.y.tdiv g.ratio.Y) *
      (1 + g.img.rect.max.x.tdiv g.ratio.X - g.img.rect.min.x.tdiv g.ratio.X) =
      (1 + h) * (1 + w) := by
    rw [hrect, hratio]
    dsimp only
    rw [Int.mul_tdiv_cancel _ (by omega), Int.mul_tdiv_cancel _ (by omega),
      Int.zero_tdiv, Int.zero_tdiv]
    ring
  unfold Set
  rw [hdim]
  by_cases hlen : (contents.length : ℤ) ≠ (1 + h) * (1 + w)
  · rw [if_pos hlen]
    exact ⟨⟨fun _ => hlen, fun _ => rfl⟩, fun _ => rfl⟩
  · rw [if_neg hlen]
    refine ⟨⟨fun hc => ?_, fun hc => absurd hc hlen⟩, fun hc => ?_⟩
    · exact absurd hc (by simp)
    · exact absurd hc (by simp)

/-- Monotonicity of the radial ramp: a cell whose squared distance from
the center is no larger gets a ramp value that is no larger (the divisor
being the distance to whatever corner was selected). -/
theorem radialIndex_mono (c f : GoPoint) {p q : GoPoint}
    (h : sqDist c p ≤ sqDist c q) : radialIndex c p f ≤ radialIndex c q f := by
  have hdist : ∀ r : GoPoint, EuclideanDistance c r = Real.sqrt ((sqDist c r : ℤ) : ℝ) := by
    intro r
    unfold EuclideanDistance sqDist
    congr 1
    push_cast
    ring
  unfold radialIndex
  rw [hdist p, hdist q]
  apply Int.floor_le_floor
  have hnum : (255 : ℝ) * Real.sqrt ((sqDist c p : ℤ) : ℝ) ≤
      255 * Real.sqrt ((sqDist c q : ℤ) : ℝ) :=
    mul_le_mul_of_nonneg_left (Real.sqrt_le_sqrt (Int.cast_le.mpr h)) (by norm_num)
  rcases eq_or_lt_of_le (Real.sqrt_nonneg ((((c.x - f.x) : ℤ) : ℝ) ^ 2 +
      (((c.y - f.y) : ℤ) : ℝ) ^ 2)) with h0 | h0
  · unfold EuclideanDistance
    rw [← h0, div_zero, div_zero]
  · exact (div_le_div_iff_of_pos_right (by unfold EuclideanDistance; exact h0)).mpr hnum

end conway

/-!
## The claims
-/

/-- Claim C1, counterexample.  A generation on a rectangle with
`Max = (3, 3)` whose live cells are the column `(2, 0), (2, 1), (2, 2)`:
cell `(3, 1)` is dead and has exactly 3 live neighbours, yet `Next` leaves
it dead (the write at the last logical column is a no-op on the half-open
rectangle), refuting the claimed iff for every cell of the grid. -/
def C1cex : conwayMin.generation :=
  (conwayMin.Set (conwayMin.NewGeneration ⟨⟨0, 0⟩, ⟨3, 3⟩⟩)
    [false, false, true, false, false, true, false, false,
     true, false, false, false, false, false, false, false]).1

/-- Claim C1 is false as stated: a dead cell with exactly 3 live
neighbours on the last logical column is not born. -/
theorem C1_counterexample :
    C1cex.colorIndexAt 3 1 = 0 ∧ liveNeighbors C1cex 3 1 = 3 ∧
    (conwayMin.Next C1cex).colorIndexAt 3 1 = 0 := by decide

/-- Claim C1 (amended): on the minimal engine, a cell of the successor is
live iff it lies strictly inside the half-open rectangle
(`0 ≤ x < Max.X`, `0 ≤ y < Max.Y`) and was live with exactly 2 or 3 live
neighbours or dead with exactly 3 live neighbours; every other cell of the
successor — including the whole last logical row and column — is dead. -/
theorem C1_step_liveness (g : conwayMin.generation) (hmin : g.rect.min = ⟨0, 0⟩)
    (x y : ℤ) :
    (conwayMin.Next g).colorIndexAt x y ≠ 0 ↔
      (0 ≤ x ∧ x < g.rect.max.x ∧ 0 ≤ y ∧ y < g.rect.max.y ∧
        ((g.colorIndexAt x y ≠ 0 ∧
            (liveNeighbors g x y = 2 ∨ liveNeighbors g x y = 3)) ∨
         (g.colorIndexAt x y = 0 ∧ liveNeighbors g x y = 3))) := by
  have hminx : g.rect.min.x = 0 := by rw [hmin]
  have hminy : g.rect.min.y = 0 := by rw [hmin]
  have hn := conwayMin.nbalive_eq_liveNeighbors g hminx hminy
  rw [conwayMin.Next_colorIndexAt]
  unfold conwayMin.stepRule
  simp only [hn]
  split_ifs with hcond
  · simp only [ne_eq, one_ne_zero, not_false_eq_true, true_iff]
    exact hcond
  · simp only [ne_eq, not_true_eq_false, false_iff]
    exact hcond

theorem C1_step_liveness_witness :
    (conwayMin.NewGeneration ⟨⟨0, 0⟩, ⟨2, 2⟩⟩).rect.min = ⟨0, 0⟩ ∧
    ((conwayMin.Next (conwayMin.NewGeneration ⟨⟨0, 0⟩, ⟨2, 2⟩⟩)).colorIndexAt 0 0 ≠ 0 ↔
      (0 ≤ (0 : ℤ) ∧ (0 : ℤ) < (conwayMin.NewGeneration ⟨⟨0, 0⟩, ⟨2, 2⟩⟩).rect.max.x ∧
        0 ≤ (0 : ℤ) ∧ (0 : ℤ) < (conwayMin.NewGeneration ⟨⟨0, 0⟩, ⟨2, 2⟩⟩).rect.max.y ∧
        (((conwayMin.NewGeneration ⟨⟨0, 0⟩, ⟨2, 2⟩⟩).colorIndexAt 0 0 ≠ 0 ∧
            (liveNeighbors (conwayMin.NewGeneration ⟨⟨0, 0⟩, ⟨2, 2⟩⟩) 0 0 = 2 ∨
             liveNeighbors (conwayMin.NewGeneration ⟨⟨0, 0⟩, ⟨2, 2⟩⟩) 0 0 = 3)) ∨
         ((conwayMin.NewGeneration ⟨⟨0, 0⟩, ⟨2, 2⟩⟩).colorIndexAt 0 0 = 0 ∧
            liveNeighbors (conwayMin.NewGeneration ⟨⟨0, 0⟩, ⟨2, 2⟩⟩) 0 0 = 3)))) :=
  ⟨rfl, C1_step_liveness (conwayMin.NewGeneration ⟨⟨0, 0⟩, ⟨2, 2⟩⟩) rfl 0 0⟩

/-- Claim C2: `Set` of the aspect-ratio engine errors exactly when the
flat contents length differs from `(1+h)*(1+w)` (the logical cell count of
a generation built on `Max = (w, h)` with positive ratio), leaves the
generation untouched on error, and accepts every sequence of the right
length — including the all-false one — with no error. -/
theorem C2_setContents_error (g : conway.generation) (w h rx ry : ℤ)
    (hrx : 1 ≤ rx) (hry : 1 ≤ ry)
    (hrect : g.img.rect = ⟨⟨0, 0⟩, ⟨w * rx, h * ry⟩⟩)
    (hratio : g.ratio = ⟨rx, ry⟩) (contents : List Bool) :
    ((conway.Set g contents).2 = true ↔ (contents.length : ℤ) ≠ (1 + h) * (1 + w)) ∧
    ((conway.Set g contents).2 = true → (conway.Set g contents).1 = g) :=
  conway.Set_error g w h rx ry hrx hry hrect hratio contents

theorem C2_setContents_error_witness :
    (1 : ℤ) ≤ 1 ∧
    (((conway.Set (conway.NewGeneration ⟨⟨0, 0⟩, ⟨1, 1⟩⟩ ⟨1, 1⟩ "gradient" 1 1) []).2 = true ↔
        (([] : List Bool).length : ℤ) ≠ (1 + 1) * (1 + 1)) ∧
      ((conway.Set (conway.NewGeneration ⟨⟨0, 0⟩, ⟨1, 1⟩⟩ ⟨1, 1⟩ "gradient" 1 1) []).2 = true →
        (conway.Set (conway.NewGeneration ⟨⟨0, 0⟩, ⟨1, 1⟩⟩ ⟨1, 1⟩ "gradient" 1 1) []).1 =
          conway.NewGeneration ⟨⟨0, 0⟩, ⟨1, 1⟩⟩ ⟨1, 1⟩ "gradient" 1 1)) :=
  ⟨by decide,
   C2_setContents_error (conway.NewGeneration ⟨⟨0, 0⟩, ⟨1, 1⟩⟩ ⟨1, 1⟩ "gradient" 1 1)
     1 1 1 1 (by decide) (by decide) rfl rfl []⟩

/-- A 2×2 block at the origin on a `Max = (3, 3)` grid, gradient model,
generation 1 of 2 in total (the live cells carry
`uint8(1*255/2) = 127`). -/
noncomputable def C3g1 : conway.generation :=
  (conway.Set (conway.NewGeneration ⟨⟨0, 0⟩, ⟨3, 3⟩⟩ ⟨1, 1⟩ "gradient" 1 2)
    [true, true, false, true, true, false, false, false,
     false, false, false, false, false, false, false, false]).1

/-- Claim C3 is false as stated: in a 2-generation gradient simulation,
the live cells of generation 2 (produced by stepping generation 1) carry
palette index `uint8(1*255/2) = 127`, not the claimed
`floor(2*255/2) = 255`: `Next` colors with the predecessor's ordinal. -/
theorem C3_counterexample :
    (conway.Next C3g1).nbgeneration = 2 ∧ (conway.Next C3g1).nbgenerations = 2 ∧
    conway.ColorIndexAt (conway.Next C3g1) 0 0 = 127 ∧
    u8 (((2 : ℤ) * 255).tdiv 2) = 255 := by decide

/-- Claim C3 (amended): under the gradient model every live cell of a
generation carries `uint8(n*255/G)` where `n` is the ordinal of the
generation the color was computed from: the generation itself for the bulk
initializer `Set` (applied to the blank generation the caller creates),
but the *predecessor* for cells written by `Next` — stated for an
arbitrary gradient generation, in particular one with live cells — whose
result has ordinal `1 + n`.  No clamping to `[1, 255]` is applied — the
value is the raw truncating division reduced mod 256, and when it is 0
the affected cells are simply left dead.  Within one generation all live
cells share this single index. -/
theorem C3_gradient_color (g g0 : conway.generation) (contents : List Bool)
    (hmodel : g.model = "gradient") (hmodel0 : g0.model = "gradient")
    (hfresh0 : ∀ o : ℤ, g0.img.pix o = 0) :
    (∀ x y : ℤ, conway.ColorIndexAt (conway.Set g0 contents).1 x y ≠ 0 →
      conway.ColorIndexAt (conway.Set g0 contents).1 x y = conway.gradColor g0) ∧
    (∀ x y : ℤ, conway.ColorIndexAt (conway.Next g) x y ≠ 0 →
      conway.ColorIndexAt (conway.Next g) x y = conway.gradColor g) ∧
    (conway.Next g).nbgeneration = 1 + g.nbgeneration ∧
    conway.gradColor g = u8 ((g.nbgeneration * 255).tdiv g.nbgenerations) := by
  refine ⟨?_, ?_, conway.Next_nbgeneration g, rfl⟩
  · intro x y hne
    unfold conway.ColorIndexAt at hne ⊢
    exact conway.colorIndexAt_of_pixBounded
      (conway.Set_pixBounded hmodel0 hfresh0 contents) hne
  · intro x y hne
    unfold conway.ColorIndexAt at hne ⊢
    exact conway.colorIndexAt_of_pixBounded (conway.Next_pixBounded hmodel) hne

/-- Witness for C3: `Next` is applied to `C3g1`, a generation that really
has live cells (the stable 2×2 block at index 127), and `Set` to a blank
generation with an accepted, non-empty population; the trailing conjuncts
check that both exercised operations produce live cells, so neither part
holds vacuously. -/
theorem C3_gradient_color_witness :
    (C3g1.model = "gradient" ∧
     (conway.NewGeneration ⟨⟨0, 0⟩, ⟨3, 3⟩⟩ ⟨1, 1⟩ "gradient" 1 2).model = "gradient" ∧
     (∀ o : ℤ, (conway.NewGeneration ⟨⟨0, 0⟩, ⟨3, 3⟩⟩ ⟨1, 1⟩ "gradient" 1 2).img.pix o = 0)) ∧
    ((∀ x y : ℤ,
        conway.ColorIndexAt
          (conway.Set (conway.NewGeneration ⟨⟨0, 0⟩, ⟨3, 3⟩⟩ ⟨1, 1⟩ "gradient" 1 2)
            [true, true, false, true, true, false, false, false,
             false, false, false, false, false, false, false, false]).1 x y ≠ 0 →
        conway.ColorIndexAt
          (conway.Set (conway.NewGeneration ⟨⟨0, 0⟩, ⟨3, 3⟩⟩ ⟨1, 1⟩ "gradient" 1 2)
            [true, true, false, true, true, false, false, false,
             false, false, false, false, false, false, false, false]).1 x y =
          conway.gradColor (conway.NewGeneration ⟨⟨0, 0⟩, ⟨3, 3⟩⟩ ⟨1, 1⟩ "gradient" 1 2)) ∧
     (∀ x y : ℤ, conway.ColorIndexAt (conway.Next C3g1) x y ≠ 0 →
        conway.ColorIndexAt (conway.Next C3g1) x y = conway.gradColor C3g1) ∧
     (conway.Next C3g1).nbgeneration = 1 + C3g1.nbgeneration ∧
     conway.gradColor C3g1 = u8 ((C3g1.nbgeneration * 255).tdiv C3g1.nbgenerations)) ∧
    conway.ColorIndexAt C3g1 0 0 ≠ 0 ∧
    conway.ColorIndexAt (conway.Next C3g1) 0 0 ≠ 0 ∧
    conway.ColorIndexAt
      (conway.Set (conway.NewGeneration ⟨⟨0, 0⟩, ⟨3, 3⟩⟩ ⟨1, 1⟩ "gradient" 1 2)
        [true, true, false, true, true, false, false, false,
         false, false, false, false, false, false, false, false]).1 0 0 ≠ 0 :=
  ⟨⟨by decide, rfl, fun _ => rfl⟩,
   C3_gradient_color C3g1 (conway.NewGeneration ⟨⟨0, 0⟩, ⟨3, 3⟩⟩ ⟨1, 1⟩ "gradient" 1 2)
     [true, true, false, true, true, false, false, false,
      false, false, false, false, false, false, false, false]
     (by decide) rfl (fun _ => rfl),
   by decide, by decide, by decide⟩

/-- Claim C4 is false as stated: for center `(1, 1)` of the logical
rectangle `[0,3] × [0,3]` (a width-3, height-3 grid), the quadrant test of
`farestPoint` selects the corner `(0, 0)` at squared distance 2, although
the corner `(3, 3)` lies at squared distance 8 — the selected corner is
not the farthest one (the test compares against `(Max-Min)/2` with
truncating division instead of the true midpoint). -/
theorem C4_counterexample :
    conway.farestPoint ⟨1, 1⟩ ⟨⟨0, 0⟩, ⟨3, 3⟩⟩ = ⟨0, 0⟩ ∧
    conway.sqDist ⟨1, 1⟩ ⟨0, 0⟩ = 2 ∧ conway.sqDist ⟨1, 1⟩ ⟨3, 3⟩ = 8 := by decide

/-- Claim C4 (amended): the radial index is
`floor(255 * dist(center, cell) / dist(center, selected))` where
`selected` is the corner the quadrant test picks — which need not be the
farthest corner.  Relative to whatever corner was selected the ramp is
monotone: cells at equal distance from the center receive identical
values (hence identical palette indices through `radialColor`), and a
cell no farther than another receives a value no larger. -/
theorem C4_radial_monotone (c f p q : GoPoint)
    (h : conway.sqDist c p ≤ conway.sqDist c q) :
    conway.radialIndex c p f ≤ conway.radialIndex c q f ∧
    (conway.sqDist c p = conway.sqDist c q →
      conway.radialIndex c p f = conway.radialIndex c q f) ∧
    (∀ (g : conway.generation) (x1 y1 x2 y2 : ℤ),
      conway.sqDist g.center ⟨x1, y1⟩ = conway.sqDist g.center ⟨x2, y2⟩ →
      conway.radialColor g x1 y1 = conway.radialColor g x2 y2) := by
  refine ⟨conway.radialIndex_mono c f h, fun he => le_antisymm
    (conway.radialIndex_mono c f h)
    (conway.radialIndex_mono c f (le_of_eq he.symm)), ?_⟩
  intro g x1 y1 x2 y2 he
  unfold conway.radialColor
  congr 1
  exact le_antisymm (conway.radialIndex_mono _ _ (le_of_eq he))
    (conway.radialIndex_mono _ _ (le_of_eq he.symm))

theorem C4_radial_monotone_witness :
    conway.sqDist ⟨0, 0⟩ ⟨1, 0⟩ ≤ conway.sqDist ⟨0, 0⟩ ⟨2, 0⟩ ∧
    (conway.radialIndex ⟨0, 0⟩ ⟨1, 0⟩ ⟨3, 3⟩ ≤ conway.radialIndex ⟨0, 0⟩ ⟨2, 0⟩ ⟨3, 3⟩ ∧
     (conway.sqDist ⟨0, 0⟩ ⟨1, 0⟩ = conway.sqDist ⟨0, 0⟩ ⟨2, 0⟩ →
       conway.radialIndex ⟨0, 0⟩ ⟨1, 0⟩ ⟨3, 3⟩ = conway.radialIndex ⟨0, 0⟩ ⟨2, 0⟩ ⟨3, 3⟩) ∧
     (∀ (g : conway.generation) (x1 y1 x2 y2 : ℤ),
       conway.sqDist g.center ⟨x1, y1⟩ = conway.sqDist g.center ⟨x2, y2⟩ →
       conway.radialColor g x1 y1 = conway.radialColor g x2 y2)) :=
  ⟨by decide, C4_radial_monotone ⟨0, 0⟩ ⟨3, 3⟩ ⟨1, 0⟩ ⟨2, 0⟩ (by decide)⟩

/-- Claim C5 is false as stated: `NewGeneration` performs no validation of
the aspect ratio.  With the non-positive component `X = 0` creation
succeeds (the pixel count is 0, `make` does not panic, no error is
surfaced), and with `X = -1` the pixel count is negative and Go panics in
`make` instead of surfacing a configuration error. -/
theorem C5_counterexample :
    conway.NewGenerationChecked ⟨⟨0, 0⟩, ⟨2, 2⟩⟩ ⟨0, 1⟩ "gradient" 1 5 =
      Except.ok (conway.NewGeneration ⟨⟨0, 0⟩, ⟨2, 2⟩⟩ ⟨0, 1⟩ "gradient" 1 5) ∧
    conway.NewGenerationChecked ⟨⟨0, 0⟩, ⟨2, 2⟩⟩ ⟨-1, 1⟩ "gradient" 1 5 =
      Except.error "panic: makeslice: len out of range" := by
  constructor
  · rfl
  · rfl

/-- Claim C5 (amended): `NewGeneration` cannot fail — it has no error
result and no validation; for positive aspect-ratio components (and a
grid with nonnegative `Max`) it returns, without error or panic, a
zero-filled (all-dead) generation: every logical cell reads palette
index 0. -/
theorem C5_create (rectangle : GoRect) (ratio : conway.AspectRatio) (model : String)
    (n N : ℤ) (hx : 1 ≤ ratio.X) (hy : 1 ≤ ratio.Y)
    (hw : 0 ≤ rectangle.max.x) (hh : 0 ≤ rectangle.max.y) :
    conway.NewGenerationChecked rectangle ratio model n N =
      Except.ok (conway.NewGeneration rectangle ratio model n N) ∧
    (∀ x y : ℤ, conway.ColorIndexAt (conway.NewGeneration rectangle ratio model n N) x y = 0) := by
  constructor
  · unfold conway.NewGenerationChecked
    rw [if_neg]
    unfold conway.nbpixels
    have h1 : (0 : ℤ) ≤ (1 + rectangle.max.y) * ratio.Y * (1 + rectangle.max.x) * ratio.X :=
      mul_nonneg (mul_nonneg (mul_nonneg (by omega) (by omega)) (by omega)) (by omega)
    omega
  · intro x y
    exact conway.ColorIndexAt_of_zero_pix (fun o => rfl) x y

theorem C5_create_witness :
    ((1 : ℤ) ≤ (conway.AspectRatio.mk 1 1).X ∧ (1 : ℤ) ≤ (conway.AspectRatio.mk 1 1).Y ∧
     (0 : ℤ) ≤ (GoRect.mk ⟨0, 0⟩ ⟨2, 2⟩).max.x ∧ (0 : ℤ) ≤ (GoRect.mk ⟨0, 0⟩ ⟨2, 2⟩).max.y) ∧
    (conway.NewGenerationChecked ⟨⟨0, 0⟩, ⟨2, 2⟩⟩ ⟨1, 1⟩ "gradient" 1 5 =
      Except.ok (conway.NewGeneration ⟨⟨0, 0⟩, ⟨2, 2⟩⟩ ⟨1, 1⟩ "gradient" 1 5) ∧
     (∀ x y : ℤ,
       conway.ColorIndexAt (conway.NewGeneration ⟨⟨0, 0⟩, ⟨2, 2⟩⟩ ⟨1, 1⟩ "gradient" 1 5) x y = 0)) :=
  ⟨⟨by decide, by decide, by decide, by decide⟩,
   C5_create ⟨⟨0, 0⟩, ⟨2, 2⟩⟩ ⟨1, 1⟩ "gradient" 1 5
     (by decide) (by decide) (by decide) (by decide)⟩

/-- Claim C6: the step loop never mutates the generation it reads — the
threaded read buffer comes out of `NextState` identically — and `Run` on a
freshly built game fills slot `i` (for `0 ≤ i < N`) with the `i`-th
iterate of `Next` on the externally supplied generation 0, which itself
stays in slot 0 untouched; the whole sequence is the deterministic iterate
of `Next` from generation 0. -/
theorem C6_run_deterministic (w h : ℤ) (n : ℤ) (g0 : conway.generation) (hn : 1 ≤ n) :
    (∀ gp nxt : conway.generation, (conway.NextState gp nxt).1 = gp) ∧
    (∀ i : ℕ, (i : ℤ) < n →
      (conway.Run (conway.NewConway w h n g0)).generations i =
        some (conway.Next^[i] g0)) :=
  ⟨conway.NextState_fst, conway.Run_generations w h n g0 hn⟩

theorem C6_run_deterministic_witness :
    (1 : ℤ) ≤ 2 ∧
    ((∀ gp nxt : conway.generation, (conway.NextState gp nxt).1 = gp) ∧
     (∀ i : ℕ, (i : ℤ) < 2 →
       (conway.Run (conway.NewConway 1 1 2
         (conway.NewGeneration ⟨⟨0, 0⟩, ⟨1, 1⟩⟩ ⟨1, 1⟩ "gradient" 1 2))).generations i =
         some (conway.Next^[i]
           (conway.NewGeneration ⟨⟨0, 0⟩, ⟨1, 1⟩⟩ ⟨1, 1⟩ "gradient" 1 2)))) :=
  ⟨by decide,
   C6_run_deterministic 1 1 2
     (conway.NewGeneration ⟨⟨0, 0⟩, ⟨1, 1⟩⟩ ⟨1, 1⟩ "gradient" 1 2) (by decide)⟩

/-- Claim C8: on any generation of the aspect-ratio engine whose image
rectangle is the standard `[0, w*rx) × [0, h*ry)` with ratio `(rx, ry)`,
every cell of the last logical row `y = h` and column `x = w` reads
palette index 0 (the probed pixel lies outside the half-open rectangle);
`SetColorIndex` at those coordinates is a complete no-op (every pixel of
the target block is outside the rectangle); and for interior cells
(`0 ≤ x < w`, `0 ≤ y < h`) the `SetColorIndex`-then-`ColorIndexAt` round
trip returns the written index exactly. -/
theorem C8_dead_fringe (g : conway.generation) (w h rx ry : ℤ)
    (hrx : 1 ≤ rx) (hry : 1 ≤ ry)
    (hrect : g.img.rect = ⟨⟨0, 0⟩, ⟨w * rx, h * ry⟩⟩)
    (hratio : g.ratio = ⟨rx, ry⟩) :
    (∀ x : ℤ, conway.ColorIndexAt g x h = 0) ∧
    (∀ y : ℤ, conway.ColorIndexAt g w y = 0) ∧
    (∀ (x : ℤ) (c : ℕ), conway.SetColorIndex g x h c = g) ∧
    (∀ (y : ℤ) (c : ℕ), conway.SetColorIndex g w y c = g) ∧
    (∀ (x y : ℤ) (c : ℕ), 0 ≤ x → x < w → 0 ≤ y → y < h →
      conway.ColorIndexAt (conway.SetColorIndex g x y c) x y = c) :=
  ⟨fun x => conway.ColorIndexAt_last_row g w h rx ry hrect hratio x,
   fun y => conway.ColorIndexAt_last_col g w h rx ry hrect hratio y,
   fun x c => conway.SetColorIndex_last_row g w h rx ry hrect hratio x c,
   fun y c => conway.SetColorIndex_last_col g w h rx ry hrect hratio y c,
   fun x y c hx1 hx2 hy1 hy2 =>
     conway.ColorIndexAt_SetColorIndex g w h rx ry hrx hry hrect hratio x y c hx1 hx2 hy1 hy2⟩

theorem C8_dead_fringe_witness :
    ((1 : ℤ) ≤ 2 ∧ (1 : ℤ) ≤ 1 ∧
     (conway.NewGeneration ⟨⟨0, 0⟩, ⟨2, 2⟩⟩ ⟨2, 1⟩ "gradient" 1 1).img.rect =
       ⟨⟨0, 0⟩, ⟨2 * 2, 2 * 1⟩⟩ ∧
     (conway.NewGeneration ⟨⟨0, 0⟩, ⟨2, 2⟩⟩ ⟨2, 1⟩ "gradient" 1 1).ratio = ⟨2, 1⟩) ∧
    ((∀ x : ℤ,
        conway.ColorIndexAt (conway.NewGeneration ⟨⟨0, 0⟩, ⟨2, 2⟩⟩ ⟨2, 1⟩ "gradient" 1 1) x 2 = 0) ∧
     (∀ y : ℤ,
        conway.ColorIndexAt (conway.NewGeneration ⟨⟨0, 0⟩, ⟨2, 2⟩⟩ ⟨2, 1⟩ "gradient" 1 1) 2 y = 0) ∧
     (∀ (x : ℤ) (c : ℕ),
        conway.SetColorIndex (conway.NewGeneration ⟨⟨0, 0⟩, ⟨2, 2⟩⟩ ⟨2, 1⟩ "gradient" 1 1) x 2 c =
          conway.NewGeneration ⟨⟨0, 0⟩, ⟨2, 2⟩⟩ ⟨2, 1⟩ "gradient" 1 1) ∧
     (∀ (y : ℤ) (c : ℕ),
        conway.SetColorIndex (conway.NewGeneration ⟨⟨0, 0⟩, ⟨2, 2⟩⟩ ⟨2, 1⟩ "gradient" 1 1) 2 y c =
          conway.NewGeneration ⟨⟨0, 0⟩, ⟨2, 2⟩⟩ ⟨2, 1⟩ "gradient" 1 1) ∧
     (∀ (x y : ℤ) (c : ℕ), 0 ≤ x → x < 2 → 0 ≤ y → y < 2 →
        conway.ColorIndexAt
          (conway.SetColorIndex (conway.NewGeneration ⟨⟨0, 0⟩, ⟨2, 2⟩⟩ ⟨2, 1⟩ "gradient" 1 1) x y c)
          x y = c)) :=
  ⟨⟨by decide, by decide, rfl, rfl⟩,
   C8_dead_fringe (conway.NewGeneration ⟨⟨0, 0⟩, ⟨2, 2⟩⟩ ⟨2, 1⟩ "gradient" 1 1)
     2 2 2 1 (by decide) (by decide) rfl rfl⟩

/-- On the minimal engine, a generation whose live cells are exactly one
2×2 block (necessarily inside the live region `[0, Max.X) × [0, Max.Y)`,
since cells outside it can never read live) is a fixed point of `Next` in
liveness: every block cell has exactly 3 live neighbours and survives, and
every other cell has at most 2 live neighbours among the block and stays
dead. -/
theorem blockFixedMin (g : conwayMin.generation) (a b : ℤ)
    (hmin : g.rect.min = ⟨0, 0⟩)
    (hlive : ∀ x y : ℤ, g.colorIndexAt x y ≠ 0 ↔
      (a ≤ x ∧ x ≤ a + 1 ∧ b ≤ y ∧ y ≤ b + 1)) :
    ∀ x y : ℤ, (conwayMin.Next g).colorIndexAt x y ≠ 0 ↔ g.colorIndexAt x y ≠ 0 := by
  have hminx : g.rect.min.x = 0 := by rw [hmin]
  have hminy : g.rect.min.y = 0 := by rw [hmin]
  have hn := conwayMin.nbalive_eq_liveNeighbors g hminx hminy
  have hrw : ∀ u v : ℤ, (if g.colorIndexAt u v ≠ 0 then (1 : ℕ) else 0) =
      if a ≤ u ∧ u ≤ a + 1 ∧ b ≤ v ∧ v ≤ b + 1 then 1 else 0 :=
    fun u v => if_congr (hlive u v) rfl rfl
  intro x y
  rw [conwayMin.Next_colorIndexAt g x y]
  unfold conwayMin.stepRule
  simp only [hn]
  by_cases hblock : a ≤ x ∧ x ≤ a + 1 ∧ b ≤ y ∧ y ≤ b + 1
  · have hlxy := (hlive x y).mpr hblock
    have hin := g.inRect_of_colorIndexAt_ne_zero hlxy
    rw [GoPoint.inRect_def] at hin
    have hc3 : liveNeighbors g x y = 3 := by
      unfold liveNeighbors
      rw [hrw x (y+1), hrw (x-1) (y+1), hrw (x+1) (y+1), hrw x (y-1),
        hrw (x-1) (y-1), hrw (x+1) (y-1), hrw (x-1) y, hrw (x+1) y]
      split_ifs <;> omega
    rw [if_pos ⟨by omega, by omega, by omega, by omega, Or.inl ⟨hlxy, Or.inr hc3⟩⟩]
    simp only [ne_eq, one_ne_zero, not_false_eq_true, true_iff]
    exact hlxy
  · have hdead : g.colorIndexAt x y = 0 := by
      by_contra hne
      exact hblock ((hlive x y).mp hne)
    have hne3 : liveNeighbors g x y ≠ 3 := by
      unfold liveNeighbors
      rw [hrw x (y+1), hrw (x-1) (y+1), hrw (x+1) (y+1), hrw x (y-1),
        hrw (x-1) (y-1), hrw (x+1) (y-1), hrw (x-1) y, hrw (x+1) y]
      split_ifs <;> omega
    have hcon : ¬ (0 ≤ x ∧ x < g.rect.max.x ∧ 0 ≤ y ∧ y < g.rect.max.y ∧
        ((g.colorIndexAt x y ≠ 0 ∧
            (liveNeighbors g x y = 2 ∨ liveNeighbors g x y = 3)) ∨
         (g.colorIndexAt x y = 0 ∧ liveNeighbors g x y = 3))) := by
      rintro ⟨_, _, _, _, hor⟩
      rcases hor with ⟨hl, _⟩ | ⟨_, h3⟩
      · exact hl hdead
      · exact hne3 h3
    rw [if_neg hcon]
    simp [hdead]

/-- The aspect-ratio engine at unit ratio and gradient model with a
nonzero gradient index also keeps the 2×2 block fixed in liveness: the
rule fires exactly as in the minimal engine and the survivors are written
with the nonzero `gradColor`. -/
theorem conway.block_fixed_one (gA : conway.generation) (a b : ℤ)
    (hratio : gA.ratio = ⟨1, 1⟩) (hmodel : gA.model = "gradient")
    (hc : conway.gradColor gA ≠ 0) (hmin : gA.img.rect.min = ⟨0, 0⟩)
    (hlive : ∀ x y : ℤ, conway.ColorIndexAt gA x y ≠ 0 ↔
      (a ≤ x ∧ x ≤ a + 1 ∧ b ≤ y ∧ y ≤ b + 1)) :
    ∀ x y : ℤ, conway.ColorIndexAt (conway.Next gA) x y ≠ 0 ↔
      conway.ColorIndexAt gA x y ≠ 0 := by
  have hliveP : ∀ x y : ℤ, gA.img.colorIndexAt x y ≠ 0 ↔
      (a ≤ x ∧ x ≤ a + 1 ∧ b ≤ y ∧ y ≤ b + 1) := by
    intro x y
    rw [← conway.ColorIndexAt_one hratio]
    exact hlive x y
  have hB := blockFixedMin gA.img a b hmin hliveP
  intro x y
  rw [conway.Next_colorIndexAt_one gA hratio hmin, conway.cellColor_gradient hmodel x y,
    conway.ColorIndexAt_one hratio, ← hB x y, conwayMin.Next_colorIndexAt gA.img x y]
  by_cases hcnd : 0 ≤ x ∧ x < gA.img.rect.max.x ∧ 0 ≤ y ∧ y < gA.img.rect.max.y ∧
      conway.stepRule gA x y
  · rw [if_pos hcnd, if_pos ⟨hcnd.1, hcnd.2.1, hcnd.2.2.1, hcnd.2.2.2.1,
      (conway.stepRule_one hratio x y).mp hcnd.2.2.2.2⟩]
    simp [hc]
  · rw [if_neg hcnd, if_neg (fun h2 => hcnd ⟨h2.1, h2.2.1, h2.2.2.1, h2.2.2.2.1,
      (conway.stepRule_one hratio x y).mpr h2.2.2.2.2⟩)]

/-- A 2×2 block at the origin for the aspect-ratio engine on the
`Max = (3, 3)` rectangle (stride 4, as its `NewGeneration` builds), unit
ratio, gradient model, generation 1 of 300: the gradient index
`uint8(1*255/300)` is 0, so the survival writes store dead pixels. -/
def C7cexA : conway.generation :=
  { img := { pix := fun o => if o = 0 ∨ o = 1 ∨ o = 4 ∨ o = 5 then 1 else 0,
             stride := 4, rect := ⟨⟨0, 0⟩, ⟨3, 3⟩⟩ },
    ratio := ⟨1, 1⟩, model := "gradient", nbgeneration := 1, nbgenerations := 300,
    center := ⟨0, 0⟩ }

/-- Claim C7 is false as stated for the aspect-ratio engine cited in its
sources: `C7cexA`'s live cells are exactly one 2×2 block on a grid of
width 3 and height 3 (the map over the whole cell grid matches the block
predicate, and cells outside the rectangle always read dead), yet its
step does not preserve liveness — the block cell `(0, 0)` is live before
and dead after, because the survival write stores the gradient index
`uint8(1*255/300) = 0`. -/
theorem C7_counterexample :
    ((cellsL 3 3).map fun c => decide (conway.ColorIndexAt C7cexA c.1 c.2 ≠ 0)) =
      ((cellsL 3 3).map fun c => decide (0 ≤ c.1 ∧ c.1 ≤ 1 ∧ 0 ≤ c.2 ∧ c.2 ≤ 1)) ∧
    conway.ColorIndexAt C7cexA 0 0 ≠ 0 ∧
    conway.ColorIndexAt (conway.Next C7cexA) 0 0 = 0 := by decide

/-- Claim C7 (amended): a generation whose live cells form exactly one
2×2 block on a grid of width ≥ 3 and height ≥ 3 is a fixed point of step
in liveness for the minimal engine unconditionally; for the aspect-ratio
engine (exercised at unit aspect ratio under the gradient model) the same
holds provided the gradient index `uint8(n*255/G)` it writes is nonzero —
when that index is 0 the surviving cells are written dead and the block
dies after one step. -/
theorem C7_block_fixed_point (gB : conwayMin.generation) (gA : conway.generation)
    (a b aA bA : ℤ)
    (hminB : gB.rect.min = ⟨0, 0⟩) (_hwB : 3 ≤ gB.rect.max.x) (_hhB : 3 ≤ gB.rect.max.y)
    (hliveB : ∀ x y : ℤ, gB.colorIndexAt x y ≠ 0 ↔
      (a ≤ x ∧ x ≤ a + 1 ∧ b ≤ y ∧ y ≤ b + 1))
    (hratio : gA.ratio = ⟨1, 1⟩) (hmodel : gA.model = "gradient")
    (hc : conway.gradColor gA ≠ 0) (hminA : gA.img.rect.min = ⟨0, 0⟩)
    (_hwA : 3 ≤ gA.img.rect.max.x) (_hhA : 3 ≤ gA.img.rect.max.y)
    (hliveA : ∀ x y : ℤ, conway.ColorIndexAt gA x y ≠ 0 ↔
      (aA ≤ x ∧ x ≤ aA + 1 ∧ bA ≤ y ∧ y ≤ bA + 1)) :
    (∀ x y : ℤ, (conwayMin.Next gB).colorIndexAt x y ≠ 0 ↔ gB.colorIndexAt x y ≠ 0) ∧
    (∀ x y : ℤ, conway.ColorIndexAt (conway.Next gA) x y ≠ 0 ↔
      conway.ColorIndexAt gA x y ≠ 0) :=
  ⟨blockFixedMin gB a b hminB hliveB,
   conway.block_fixed_one gA aA bA hratio hmodel hc hminA hliveA⟩

/-- A 2×2 block of live cells at the origin on a `Max = (3, 3)` grid,
written directly as a paletted buffer with stride 3 (the layout the
minimal engine's `NewGeneration` produces for that rectangle). -/
def C7block : conwayMin.generation :=
  { pix := fun o => if o = 0 ∨ o = 1 ∨ o = 3 ∨ o = 4 then 1 else 0,
    stride := 3, rect := ⟨⟨0, 0⟩, ⟨3, 3⟩⟩ }

/-- The block of `C7cexA` with 2 total generations instead of 300: the
gradient index is `uint8(1*255/2) = 127`, nonzero, so the aspect-ratio
engine keeps the block; the final conjunct checks the survivor really
carries 127. -/
def C7blockA : conway.generation :=
  { img := { pix := fun o => if o = 0 ∨ o = 1 ∨ o = 4 ∨ o = 5 then 1 else 0,
             stride := 4, rect := ⟨⟨0, 0⟩, ⟨3, 3⟩⟩ },
    ratio := ⟨1, 1⟩, model := "gradient", nbgeneration := 1, nbgenerations := 2,
    center := ⟨0, 0⟩ }

theorem C7_block_fixed_point_witness :
    (C7block.rect.min = ⟨0, 0⟩ ∧ (3 : ℤ) ≤ C7block.rect.max.x ∧
     (3 : ℤ) ≤ C7block.rect.max.y ∧
     (∀ x y : ℤ, C7block.colorIndexAt x y ≠ 0 ↔
       ((0 : ℤ) ≤ x ∧ x ≤ 0 + 1 ∧ (0 : ℤ) ≤ y ∧ y ≤ 0 + 1)) ∧
     C7blockA.ratio = ⟨1, 1⟩ ∧ C7blockA.model = "gradient" ∧
     conway.gradColor C7blockA ≠ 0 ∧ C7blockA.img.rect.min = ⟨0, 0⟩ ∧
     (3 : ℤ) ≤ C7blockA.img.rect.max.x ∧ (3 : ℤ) ≤ C7blockA.img.rect.max.y ∧
     (∀ x y : ℤ, conway.ColorIndexAt C7blockA x y ≠ 0 ↔
       ((0 : ℤ) ≤ x ∧ x ≤ 0 + 1 ∧ (0 : ℤ) ≤ y ∧ y ≤ 0 + 1))) ∧
    ((∀ x y : ℤ,
        (conwayMin.Next C7block).colorIndexAt x y ≠ 0 ↔ C7block.colorIndexAt x y ≠ 0) ∧
     (∀ x y : ℤ, conway.ColorIndexAt (conway.Next C7blockA) x y ≠ 0 ↔
        conway.ColorIndexAt C7blockA x y ≠ 0)) ∧
    conway.ColorIndexAt (conway.Next C7blockA) 0 0 = 127 := by
  have hliveB : ∀ x y : ℤ, C7block.colorIndexAt x y ≠ 0 ↔
      ((0 : ℤ) ≤ x ∧ x ≤ 0 + 1 ∧ (0 : ℤ) ≤ y ∧ y ≤ 0 + 1) := by
    intro x y
    unfold C7block Paletted.colorIndexAt Paletted.pixOffset GoPoint.inRect
    dsimp only
    split_ifs <;> constructor <;> intro h2 <;> omega
  have hliveA : ∀ x y : ℤ, conway.ColorIndexAt C7blockA x y ≠ 0 ↔
      ((0 : ℤ) ≤ x ∧ x ≤ 0 + 1 ∧ (0 : ℤ) ≤ y ∧ y ≤ 0 + 1) := by
    intro x y
    rw [conway.ColorIndexAt_one rfl]
    unfold C7blockA Paletted.colorIndexAt Paletted.pixOffset GoPoint.inRect
    dsimp only
    split_ifs <;> constructor <;> intro h2 <;> omega
  exact ⟨⟨rfl, by decide, by decide, hliveB, rfl, rfl, by decide, rfl,
      by decide, by decide, hliveA⟩,
    C7_block_fixed_point C7block C7blockA 0 0 0 0 rfl (by decide) (by decide) hliveB
      rfl rfl (by decide) rfl (by decide) (by decide) hliveA,
    by decide⟩

/-- Claim C9 is false as stated: on a `Max = (2, 2)` grid with the
accepted contents (length 9) whose only true entry is flat index
`0*width + 2 = 2`, the claim says cell `(2, 0)` is marked live, yet it
stays dead (the write at the last logical column is a no-op); the same
shared entry does make cell `(0, 1)` (index `1*width + 0 = 2`) live. -/
theorem C9_counterexample :
    (conwayMin.Set (conwayMin.NewGeneration ⟨⟨0, 0⟩, ⟨2, 2⟩⟩)
      [false, false, true, false, false, false, false, false, false]).1.colorIndexAt 2 0 = 0 ∧
    [false, false, true, false, false, false, false, false,
      false].getD ((0 : ℤ) * 2 + 2).toNat false = true ∧
    (conwayMin.Set (conwayMin.NewGeneration ⟨⟨0, 0⟩, ⟨2, 2⟩⟩)
      [false, false, true, false, false, false, false, false, false]).1.colorIndexAt 0 1 = 1 := by
  decide

/-- Claim C9 (amended): for an accepted contents sequence on the standard
grid, `Set` consumes the flat sequence with stride `width` (not
`width+1`): a cell `(x, y)` with `0 ≤ x < width` and `0 ≤ y < height`
ends up live exactly when `contents[y*width + x]` is true, while cells on
the last row and column always stay dead (their writes are no-ops, even
though their entries are read).  Consequently the entry at index
`width*(y+1)` is consulted for both `(width, y)` and `(0, y+1)` but only
determines the latter, and the final `height` entries of the sequence are
never read: any two accepted sequences agreeing on indices
`0 .. height*width + width` produce identical results. -/
theorem C9_set_stride (w h : ℤ) (hw : 0 ≤ w) (hh : 0 ≤ h) (contents : List Bool)
    (hlen : (contents.length : ℤ) = (1 + h) * (1 + w)) :
    (∀ x y : ℤ,
      (conwayMin.Set (conwayMin.NewGeneration ⟨⟨0, 0⟩, ⟨w, h⟩⟩) contents).1.colorIndexAt x y ≠ 0 ↔
        (0 ≤ x ∧ x < w ∧ 0 ≤ y ∧ y < h ∧
          contents.getD (y * w + x).toNat false = true)) ∧
    (∀ contents2 : List Bool, contents2.length = contents.length →
      (∀ i : ℕ, (i : ℤ) ≤ h * w + w → contents2.getD i false = contents.getD i false) →
      conwayMin.Set (conwayMin.NewGeneration ⟨⟨0, 0⟩, ⟨w, h⟩⟩) contents2 =
        conwayMin.Set (conwayMin.NewGeneration ⟨⟨0, 0⟩, ⟨w, h⟩⟩) contents) := by
  constructor
  · intro x y
    rw [conwayMin.Set_colorIndexAt (conwayMin.NewGeneration ⟨⟨0, 0⟩, ⟨w, h⟩⟩) contents
        (by dsimp only [conwayMin.NewGeneration]; omega)
        (by dsimp only [conwayMin.NewGeneration]; rw [hlen]; ring),
      conwayMin.NewGeneration_colorIndexAt]
    dsimp only [conwayMin.NewGeneration]
    split_ifs with hcond
    · simp only [ne_eq, one_ne_zero, not_false_eq_true, true_iff]
      obtain ⟨hb, h5, h6⟩ := hcond
      rw [GoPoint.inRect_def] at h6
      dsimp only at h6
      exact ⟨by omega, by omega, by omega, by omega, h5⟩
    · simp only [ne_eq, not_true_eq_false, false_iff]
      intro hcon
      obtain ⟨k1, k2, k3, k4, k5⟩ := hcon
      refine hcond ⟨⟨by omega, by omega, by omega, by omega⟩, k5, ?_⟩
      rw [GoPoint.inRect_def]
      dsimp only
      exact ⟨by omega, by omega, by omega, by omega⟩
  · intro contents2 hlen2 hagree
    unfold conwayMin.Set
    simp only [hlen2]
    split_ifs with hdim
    · rfl
    · congr 1
      apply foldl_congr_fn
      intro t i hi
      apply foldl_congr_fn
      intro t2 j hj
      dsimp only [conwayMin.NewGeneration] at hi hj ⊢
      rw [List.mem_range] at hi hj
      have hread : contents2.getD ((j : ℤ) * w + (i : ℤ)).toNat false =
          contents.getD ((j : ℤ) * w + (i : ℤ)).toNat false := by
        apply hagree
        have hiw : (i : ℤ) ≤ w := by omega
        have hjh : (j : ℤ) ≤ h := by omega
        have hjw : (j : ℤ) * w ≤ h * w := mul_le_mul_of_nonneg_right hjh hw
        have hjw0 : 0 ≤ (j : ℤ) * w := mul_nonneg (by omega) hw
        omega
      rw [hread]

theorem C9_set_stride_witness :
    ((0 : ℤ) ≤ 1 ∧ (0 : ℤ) ≤ 1 ∧
      (([true, false, false, false] : List Bool).length : ℤ) = (1 + 1) * (1 + 1)) ∧
    ((∀ x y : ℤ,
      (conwayMin.Set (conwayMin.NewGeneration ⟨⟨0, 0⟩, ⟨1, 1⟩⟩)
        [true, false, false, false]).1.colorIndexAt x y ≠ 0 ↔
        (0 ≤ x ∧ x < 1 ∧ 0 ≤ y ∧ y < 1 ∧
          [true, false, false, false].getD (y * 1 + x).toNat false = true)) ∧
     (∀ contents2 : List Bool,
        contents2.length = ([true, false, false, false] : List Bool).length →
        (∀ i : ℕ, (i : ℤ) ≤ 1 * 1 + 1 →
          contents2.getD i false = [true, false, false, false].getD i false) →
        conwayMin.Set (conwayMin.NewGeneration ⟨⟨0, 0⟩, ⟨1, 1⟩⟩) contents2 =
          conwayMin.Set (conwayMin.NewGeneration ⟨⟨0, 0⟩, ⟨1, 1⟩⟩)
            [true, false, false, false])) :=
  ⟨⟨by decide, by decide, by decide⟩,
   C9_set_stride 1 1 (by decide) (by decide) [true, false, false, false] (by decide)⟩

/-- A 2×2 block at the origin on a `Max = (3, 3)` rectangle for the
aspect-ratio engine (stride 4, as its `NewGeneration` would build), unit
ratio, gradient model, generation 1 of 300: the gradient index
`uint8(1*255/300)` is 0. -/
def C10gA : conway.generation :=
  { img := { pix := fun o => if o = 0 ∨ o = 1 ∨ o = 4 ∨ o = 5 then 1 else 0,
             stride := 4, rect := ⟨⟨0, 0⟩, ⟨3, 3⟩⟩ },
    ratio := ⟨1, 1⟩, model := "gradient", nbgeneration := 1, nbgenerations := 300,
    center := ⟨0, 0⟩ }

/-- The same 2×2 block for the minimal engine (stride 3, as its
`NewGeneration` builds for `Max = (3, 3)`). -/
def C10gB : conwayMin.generation :=
  { pix := fun o => if o = 0 ∨ o = 1 ∨ o = 3 ∨ o = 4 then 1 else 0,
    stride := 3, rect := ⟨⟨0, 0⟩, ⟨3, 3⟩⟩ }

/-- Claim C10 is false as stated: the two generations hold the same live
cells (the map over the whole cell grid agrees), yet after one step the
minimal engine keeps the stable block alive while the aspect-ratio engine
under the gradient model with 300 total generations writes color index
`uint8(1*255/300) = 0`, leaving every successor cell dead. -/
theorem C10_counterexample :
    ((cellsL 3 3).map fun c => decide (conway.ColorIndexAt C10gA c.1 c.2 ≠ 0)) =
      ((cellsL 3 3).map fun c => decide (C10gB.colorIndexAt c.1 c.2 ≠ 0)) ∧
    conway.ColorIndexAt C10gA 0 0 ≠ 0 ∧
    conway.ColorIndexAt (conway.Next C10gA) 0 0 = 0 ∧
    (conwayMin.Next C10gB).colorIndexAt 0 0 ≠ 0 := by decide

/-- Claim C10 (amended): with unit aspect ratio, the gradient color model
and a nonzero computed gradient index, the two engines' steps produce
identical liveness at every cell from inputs with identical liveness;
when the computed index is 0 (as with `g·255 < G`), every cell the
aspect-ratio engine's step writes is written dead, and the equivalence
fails. -/
theorem C10_engines_agree (gA : conway.generation) (gB : conwayMin.generation)
    (mx my : ℤ) (hratio : gA.ratio = ⟨1, 1⟩) (hmodel : gA.model = "gradient")
    (hrectA : gA.img.rect = ⟨⟨0, 0⟩, ⟨mx, my⟩⟩) (hrectB : gB.rect = ⟨⟨0, 0⟩, ⟨mx, my⟩⟩)
    (hc : conway.gradColor gA ≠ 0)
    (hagree : ∀ x y : ℤ, conway.ColorIndexAt gA x y ≠ 0 ↔ gB.colorIndexAt x y ≠ 0) :
    ∀ x y : ℤ, conway.ColorIndexAt (conway.Next gA) x y ≠ 0 ↔
      (conwayMin.Next gB).colorIndexAt x y ≠ 0 := by
  have hminA : gA.img.rect.min = ⟨0, 0⟩ := by rw [hrectA]
  have hagreeP : ∀ u v : ℤ, gA.img.colorIndexAt u v ≠ 0 ↔ gB.colorIndexAt u v ≠ 0 := by
    intro u v
    rw [← conway.ColorIndexAt_one hratio]
    exact hagree u v
  have hruleAB : ∀ u v : ℤ, conway.stepRule gA u v ↔ conwayMin.stepRule gB u v := by
    intro u v
    rw [conway.stepRule_one hratio]
    unfold conwayMin.stepRule
    have h1 := hagreeP u v
    have h1z : gA.img.colorIndexAt u v = 0 ↔ gB.colorIndexAt u v = 0 :=
      not_iff_not.mp h1
    have h2 : conwayMin.nbalive gA.img u v = conwayMin.nbalive gB u v := by
      rw [conwayMin.nbalive_eq_liveNeighbors gA.img (by rw [hrectA]) (by rw [hrectA]),
        conwayMin.nbalive_eq_liveNeighbors gB (by rw [hrectB]) (by rw [hrectB]),
        liveNeighbors_congr hagreeP u v]
    rw [h2]
    constructor
    · rintro (⟨hl, hcnt⟩ | ⟨hd, hcnt⟩)
      · exact Or.inl ⟨h1.mp hl, hcnt⟩
      · exact Or.inr ⟨h1z.mp hd, hcnt⟩
    · rintro (⟨hl, hcnt⟩ | ⟨hd, hcnt⟩)
      · exact Or.inl ⟨h1.mpr hl, hcnt⟩
      · exact Or.inr ⟨h1z.mpr hd, hcnt⟩
  intro x y
  rw [conway.Next_colorIndexAt_one gA hratio hminA, conwayMin.Next_colorIndexAt,
    conway.cellColor_gradient hmodel x y]
  simp only [hrectA, hrectB]
  by_cases hcnd : 0 ≤ x ∧ x < mx ∧ 0 ≤ y ∧ y < my ∧ conway.stepRule gA x y
  · rw [if_pos hcnd, if_pos ⟨hcnd.1, hcnd.2.1, hcnd.2.2.1, hcnd.2.2.2.1,
      (hruleAB x y).mp hcnd.2.2.2.2⟩]
    simp [hc]
  · rw [if_neg hcnd, if_neg (fun hcnd2 => hcnd ⟨hcnd2.1, hcnd2.2.1, hcnd2.2.2.1,
      hcnd2.2.2.2.1, (hruleAB x y).mpr hcnd2.2.2.2.2⟩)]

/-- The block generation of `C10gA` with 2 total generations instead of
300: the gradient index is `uint8(1*255/2) = 127`, nonzero. -/
def C10gA2 : conway.generation :=
  { img := { pix := fun o => if o = 0 ∨ o = 1 ∨ o = 4 ∨ o = 5 then 1 else 0,
             stride := 4, rect := ⟨⟨0, 0⟩, ⟨3, 3⟩⟩ },
    ratio := ⟨1, 1⟩, model := "gradient", nbgeneration := 1, nbgenerations := 2,
    center := ⟨0, 0⟩ }

theorem C10_engines_agree_witness :
    (C10gA2.ratio = ⟨1, 1⟩ ∧ C10gA2.model = "gradient" ∧
     C10gA2.img.rect = ⟨⟨0, 0⟩, ⟨3, 3⟩⟩ ∧ C10gB.rect = ⟨⟨0, 0⟩, ⟨3, 3⟩⟩ ∧
     conway.gradColor C10gA2 ≠ 0 ∧
     (∀ x y : ℤ, conway.ColorIndexAt C10gA2 x y ≠ 0 ↔ C10gB.colorIndexAt x y ≠ 0)) ∧
    (∀ x y : ℤ, conway.ColorIndexAt (conway.Next C10gA2) x y ≠ 0 ↔
      (conwayMin.Next C10gB).colorIndexAt x y ≠ 0) := by
  have hagree : ∀ x y : ℤ, conway.ColorIndexAt C10gA2 x y ≠ 0 ↔
      C10gB.colorIndexAt x y ≠ 0 := by
    intro x y
    rw [conway.ColorIndexAt_one rfl]
    unfold C10gA2 C10gB Paletted.colorIndexAt Paletted.pixOffset GoPoint.inRect
    dsimp only
    split_ifs <;> constructor <;> intro h2 <;> omega
  exact ⟨⟨rfl, rfl, rfl, rfl, by decide, hagree⟩,
    C10_engines_agree C10gA2 C10gB 3 3 rfl rfl rfl rfl (by decide) hagree⟩
